import Mathlib

/-!
Verification of the Travel Together membership manager (`database.py`).

The four persistent tables (Users, Groups, GroupMembers, GroupMessages) are
modelled as lists of rows inside a single `DB` state, and every operation of
the membership manager is translated into a pure state-passing function
`DB → result × DB`.  Conventions of the shallow embedding:

* SQL TEXT primary keys produced by `generate_id()` (UUID4) are modelled as
  natural numbers drawn from a fresh-id counter `next_id`; UUID uniqueness
  becomes the well-formedness fact that every stored id is below the counter.
* `AUTOINCREMENT` message ids come from a separate counter `next_message_id`,
  and the server-assigned `CURRENT_TIMESTAMP` of a message is modelled by a
  strictly increasing logical clock `clock`.
* A SQLite statement that raises (UNIQUE / CHECK violation) makes the Python
  function return `False` after rollback, so those paths are modelled as
  explicit checks that return the unchanged state.
* `conn.commit()` is the point where the new state becomes visible; every
  failure path before a commit returns the original state.
* Enumerated CHECK columns (`group_type`, `join_status`, `role`) are modelled
  as inductive types, so the `valid_statuses` precondition of
  `update_member_status` holds by typing.
-/

inductive GroupType
  | Public
  | Private
  deriving DecidableEq, Repr

inductive JoinStatus
  | Pending
  | Approved
  | Rejected
  | Blocked
  deriving DecidableEq, Repr

inductive Role
  | Owner
  | Admin
  | Member
  deriving DecidableEq, Repr

/-- A row of the Users table (columns irrelevant to every claim, such as
`created_at`, are omitted). -/
structure UserRow where
  userid : Nat
  username : String
  password : String
  email : String
  phone_no : Option String
  gender : Option String
  marital_status : Option String
  profile_picture : Option String
  bio : Option String
  current_group_id : Option Nat
  is_group_owner : Bool
  deriving DecidableEq, Repr

/-- A row of the Groups table (date/cost/status columns that no embedded
operation reads are omitted). -/
structure GroupRow where
  group_id : Nat
  group_name : String
  group_description : Option String
  group_type : GroupType
  owner_id : Nat
  member_count : Int
  max_members : Int
  deriving DecidableEq, Repr

/-- A row of the GroupMembers table. -/
structure MemberRow where
  member_id : Nat
  group_id : Nat
  user_id : Nat
  username : String
  join_status : JoinStatus
  role : Role
  deriving DecidableEq, Repr

/-- A row of the GroupMessages table. -/
structure MessageRow where
  message_id : Nat
  group_id : Nat
  sender_id : Nat
  sender_username : String
  message : String
  timestamp : Nat
  deriving DecidableEq, Repr

/-- A row of the TravelItinerary table (only the columns constrained by the
UNIQUE clauses are kept). -/
structure ItineraryRow where
  itinerary_id : Nat
  group_id : Nat
  destination_id : Nat
  visit_order : Nat
  deriving DecidableEq, Repr

/-- The database state.  Destinations are kept as a list of ids: no embedded
operation reads any other Destinations column. -/
structure DB where
  users : List UserRow
  groups : List GroupRow
  members : List MemberRow
  messages : List MessageRow
  destinations : List Nat
  itinerary : List ItineraryRow
  next_id : Nat
  next_message_id : Nat
  clock : Nat
  deriving DecidableEq, Repr

/-- `SELECT ... FROM Users WHERE userid = ?` followed by `fetchone()`. -/
def findUser (users : List UserRow) (uid : Nat) : Option UserRow :=
  users.find? (fun u => u.userid == uid)

/-- `SELECT ... FROM Groups WHERE group_id = ?` followed by `fetchone()`. -/
def findGroup (groups : List GroupRow) (gid : Nat) : Option GroupRow :=
  groups.find? (fun g => g.group_id == gid)

/-- The allow-listed profile columns of `update_user_profile`. -/
def allowed_fields : List String :=
  ["phone_no", "gender", "marital_status", "profile_picture", "bio"]

def field_phone_no : String := "phone_no"

def field_gender : String := "gender"

def field_marital_status : String := "marital_status"

def field_profile_picture : String := "profile_picture"

def field_bio : String := "bio"

/-- Applies the `UPDATE Users SET f1 = ?, ... WHERE userid = ?` assignments of
`update_user_profile` to a row: each allow-listed keyword with a non-`None`
value overwrites the column, everything else keeps its value.  (`kwargs` is a
partial map from keyword name to value; keys outside the allow list are never
consulted, exactly as the Python loop only iterates over `allowed_fields`.) -/
def applyProfile (kwargs : String → Option String) (u : UserRow) : UserRow :=
  { u with
    phone_no := match kwargs field_phone_no with
      | some v => some v
      | none => u.phone_no
    gender := match kwargs field_gender with
      | some v => some v
      | none => u.gender
    marital_status := match kwargs field_marital_status with
      | some v => some v
      | none => u.marital_status
    profile_picture := match kwargs field_profile_picture with
      | some v => some v
      | none => u.profile_picture
    bio := match kwargs field_bio with
      | some v => some v
      | none => u.bio }

/-- The `CHECK(gender IN ('Male', 'Female', 'Other'))` column constraint. -/
def genderOk (g : Option String) : Bool :=
  match g with
  | none => true
  | some v => ["Male", "Female", "Other"].contains v

/-- The `CHECK(marital_status IN ('Single','Married','Divorced','Widowed'))`
column constraint. -/
def maritalOk (m : Option String) : Bool :=
  match m with
  | none => true
  | some v => ["Single", "Married", "Divorced", "Widowed"].contains v

/-- The `phone_no TEXT UNIQUE` constraint, checked for the updated row `u'`
of user `uid` against every other Users row. -/
def phoneOk (db : DB) (uid : Nat) (u' : UserRow) : Bool :=
  match u'.phone_no with
  | none => true
  | some p => db.users.all (fun v => v.userid == uid || !(v.phone_no == some p))

/-- `update_user_profile(user_id, **kwargs)`: builds the update list from the
allow-listed keywords with non-`None` values; with an empty list it fails, with
`rowcount == 0` (no Users row has the id) it fails, a constraint violation
raises and is rolled back, otherwise the row is updated and committed. -/
def update_user_profile (db : DB) (uid : Nat) (kwargs : String → Option String) :
    Bool × DB :=
  if allowed_fields.all (fun f => (kwargs f).isNone) then (false, db)
  else
    match findUser db.users uid with
    | none => (false, db)
    | some u =>
      let u' := applyProfile kwargs u
      if genderOk u'.gender && maritalOk u'.marital_status && phoneOk db uid u' then
        (true, { db with
          users := db.users.map (fun v =>
            if v.userid == uid then applyProfile kwargs v else v) })
      else (false, db)

/-- `delete_group(group_id)`: clears `current_group_id`/`is_group_owner` for
every user currently in the group, then deletes the Groups row; the
`ON DELETE CASCADE` foreign keys remove the group's GroupMembers, GroupMessages
and TravelItinerary rows.  When no Groups row matches (`rowcount == 0`) the
function returns `False` before `commit`, so the Users update is rolled back.
The function takes no requester and performs no ownership check. -/
def delete_group (db : DB) (gid : Nat) : Bool × DB :=
  if db.groups.any (fun g => g.group_id == gid) then
    (true, { db with
      users := db.users.map (fun u =>
        if u.current_group_id == some gid then
          { u with current_group_id := none, is_group_owner := false }
        else u),
      groups := db.groups.filter (fun g => !(g.group_id == gid)),
      members := db.members.filter (fun m => !(m.group_id == gid)),
      messages := db.messages.filter (fun m => !(m.group_id == gid)),
      itinerary := db.itinerary.filter (fun t => !(t.group_id == gid)) })
  else (false, db)

/-- `join_group(user_id, group_id)`.  Checks, in the order of the source: the
user exists, has no `current_group_id`, owns no group; the group exists and is
not at capacity.  The `INSERT INTO GroupMembers` raises on the
`UNIQUE(group_id, user_id)` constraint when a membership row already exists,
which rolls the transaction back.  A Public group gets an `Approved` row plus
the user/group updates; a Private group only gets a `Pending` row. -/
def join_group (db : DB) (user_id gid : Nat) : Bool × DB :=
  match findUser db.users user_id with
  | none => (false, db)
  | some u =>
    if u.current_group_id.isSome then (false, db)
    else if u.is_group_owner then (false, db)
    else
      match findGroup db.groups gid with
      | none => (false, db)
      | some g =>
        if g.max_members ≤ g.member_count then (false, db)
        else if db.members.any (fun m => m.group_id == gid && m.user_id == user_id) then
          (false, db)
        else
          let js := if g.group_type = GroupType.Private then JoinStatus.Pending
                    else JoinStatus.Approved
          let row : MemberRow :=
            { member_id := db.next_id, group_id := gid, user_id := user_id,
              username := u.username, join_status := js, role := Role.Member }
          let db1 := { db with
            members := db.members ++ [row], next_id := db.next_id + 1 }
          if js = JoinStatus.Approved then
            (true, { db1 with
              users := db1.users.map (fun v =>
                if v.userid == user_id then { v with current_group_id := some gid }
                else v),
              groups := db1.groups.map (fun h =>
                if h.group_id == gid then { h with member_count := h.member_count + 1 }
                else h) })
          else (true, db1)

/-- `leave_group(user_id)`.  Fails when the user does not exist, has no
`current_group_id`, or is a group owner.  Otherwise it deletes the membership
row, clears the pointer, decrements `member_count` and commits.  The group-name
lookup result is only dereferenced after the commit, so a dangling
`current_group_id` (impossible while the foreign keys hold) would raise an
uncaught `TypeError` after the state change: that path is modelled as result
`none`. -/
def leave_group (db : DB) (user_id : Nat) : Option Bool × DB :=
  match findUser db.users user_id with
  | none => (some false, db)
  | some u =>
    match u.current_group_id with
    | none => (some false, db)
    | some gid =>
      if u.is_group_owner then (some false, db)
      else
        let db' := { db with
          members := db.members.filter (fun m =>
            !(m.group_id == gid && m.user_id == user_id)),
          users := db.users.map (fun v =>
            if v.userid == user_id then { v with current_group_id := none } else v),
          groups := db.groups.map (fun h =>
            if h.group_id == gid then { h with member_count := h.member_count - 1 }
            else h) }
        match findGroup db.groups gid with
        | some _ => (some true, db')
        | none => (none, db')

/-- `update_member_status(group_id, owner_id, member_user_id, new_status)`.
The string membership test against `valid_statuses` holds by typing.  Verifies
the group exists and the caller is its owner, updates the membership row
(`rowcount == 0`, i.e. no row, fails), then: `Approved` sets the member's
pointer to the group and increments `member_count`; `Rejected`/`Blocked`
clears the pointer and decrements `member_count` only when the member's
`current_group_id` equals this group; any other status changes nothing else. -/
def update_member_status (db : DB) (gid owner_id member_user_id : Nat)
    (new_status : JoinStatus) : Bool × DB :=
  match findGroup db.groups gid with
  | none => (false, db)
  | some g =>
    if g.owner_id ≠ owner_id then (false, db)
    else if !(db.members.any (fun m => m.group_id == gid && m.user_id == member_user_id)) then
      (false, db)
    else
      let db1 := { db with
        members := db.members.map (fun m =>
          if m.group_id == gid && m.user_id == member_user_id then
            { m with join_status := new_status }
          else m) }
      if new_status = JoinStatus.Approved then
        (true, { db1 with
          users := db1.users.map (fun v =>
            if v.userid == member_user_id then { v with current_group_id := some gid }
            else v),
          groups := db1.groups.map (fun h =>
            if h.group_id == gid then { h with member_count := h.member_count + 1 }
            else h) })
      else if new_status = JoinStatus.Rejected ∨ new_status = JoinStatus.Blocked then
        match findUser db1.users member_user_id with
        | some v =>
          if v.current_group_id = some gid then
            (true, { db1 with
              users := db1.users.map (fun w =>
                if w.userid == member_user_id then { w with current_group_id := none }
                else w),
              groups := db1.groups.map (fun h =>
                if h.group_id == gid then { h with member_count := h.member_count - 1 }
                else h) })
          else (true, db1)
        | none => (true, db1)
      else (true, db1)

/-- `create_group_with_itinerary(owner_id, group_name, group_type,
destination_ids, **kwargs)`.  Checks the owner exists, is in no group and owns
none, and that every destination id exists.  The Groups row is inserted with
the column default `member_count = 1`, the itinerary rows are inserted in
order (a duplicate destination id violates `UNIQUE(group_id, destination_id)`
and rolls everything back), the owner gets an `Owner`-role `Approved`
GroupMembers row, and the owner's pointer and flag are set. -/
def create_group_with_itinerary (db : DB) (owner_id : Nat) (group_name : String)
    (group_type : GroupType) (destination_ids : List Nat)
    (group_description : Option String) (max_members : Int) : Option Nat × DB :=
  match findUser db.users owner_id with
  | none => (none, db)
  | some u =>
    if u.current_group_id.isSome then (none, db)
    else if u.is_group_owner then (none, db)
    else if !(destination_ids.all (fun d => db.destinations.contains d)) then (none, db)
    else if !(destination_ids.Nodup : Bool) then (none, db)
    else
      let gid := db.next_id
      let g : GroupRow :=
        { group_id := gid, group_name := group_name,
          group_description := group_description, group_type := group_type,
          owner_id := owner_id, member_count := 1, max_members := max_members }
      let itinRows := destination_ids.mapIdx (fun i d =>
        { itinerary_id := db.next_id + 1 + i, group_id := gid,
          destination_id := d, visit_order := i + 1 : ItineraryRow })
      let ownerRow : MemberRow :=
        { member_id := db.next_id + 1 + destination_ids.length, group_id := gid,
          user_id := owner_id, username := u.username,
          join_status := JoinStatus.Approved, role := Role.Owner }
      (some gid, { db with
        groups := db.groups ++ [g],
        itinerary := db.itinerary ++ itinRows,
        members := db.members ++ [ownerRow],
        users := db.users.map (fun v =>
          if v.userid == owner_id then
            { v with current_group_id := some gid, is_group_owner := true }
          else v),
        next_id := db.next_id + 2 + destination_ids.length })

/-- `send_message(sender_id, group_id, message)`: fails unless the sender
exists, the group exists and the sender has an `Approved` GroupMembers row for
the group; otherwise appends exactly one GroupMessages row carrying the text
and the server-assigned timestamp. -/
def send_message (db : DB) (sender_id gid : Nat) (message : String) : Bool × DB :=
  match findUser db.users sender_id with
  | none => (false, db)
  | some u =>
    match findGroup db.groups gid with
    | none => (false, db)
    | some _ =>
      if db.members.any (fun m =>
          m.group_id == gid && m.user_id == sender_id &&
            m.join_status == JoinStatus.Approved) then
        (true, { db with
          messages := db.messages ++
            [{ message_id := db.next_message_id, group_id := gid,
               sender_id := sender_id, sender_username := u.username,
               message := message, timestamp := db.clock }],
          next_message_id := db.next_message_id + 1,
          clock := db.clock + 1 })
      else (false, db)

/-- One step of the insertion sort implementing `ORDER BY timestamp DESC`. -/
def insertDesc (m : MessageRow) : List MessageRow → List MessageRow
  | [] => [m]
  | x :: xs =>
    if m.timestamp ≤ x.timestamp then x :: insertDesc m xs else m :: x :: xs

/-- `ORDER BY timestamp DESC` on a list of message rows. -/
def orderByTimestampDesc : List MessageRow → List MessageRow
  | [] => []
  | x :: xs => insertDesc x (orderByTimestampDesc xs)

/-- `get_group_messages(group_id, limit)`: the group's messages ordered by
timestamp descending, capped by `LIMIT`, then reversed into chronological
order. -/
def get_group_messages (db : DB) (gid : Nat) (limit : Nat) : List MessageRow :=
  (((orderByTimestampDesc (db.messages.filter (fun m => m.group_id == gid))).take
      limit)).reverse

/-- The group-lifecycle operations named by the invariant of §8 of the spec. -/
inductive LifecycleOp
  | create (owner_id : Nat) (group_name : String) (group_type : GroupType)
      (destination_ids : List Nat) (group_description : Option String)
      (max_members : Int)
  | join (user_id group_id : Nat)
  | leave (user_id : Nat)
  | updateStatus (group_id owner_id member_user_id : Nat) (new_status : JoinStatus)
  | delete (group_id : Nat)
  deriving DecidableEq, Repr

/-- The state after one lifecycle operation. -/
def applyOp (db : DB) : LifecycleOp → DB
  | .create o n t ds d mm => (create_group_with_itinerary db o n t ds d mm).2
  | .join u g => (join_group db u g).2
  | .leave u => (leave_group db u).2
  | .updateStatus g o m s => (update_member_status db g o m s).2
  | .delete g => (delete_group db g).2

/-- The state after a sequence of lifecycle operations, executed sequentially. -/
def runOps (db : DB) : List LifecycleOp → DB
  | [] => db
  | op :: ops => runOps (applyOp db op) ops

/-- The number of rows of group `gid` with `join_status` `Approved` in a
GroupMembers table. -/
def approvedCountL (l : List MemberRow) (gid : Nat) : Nat :=
  (l.filter (fun m =>
    m.group_id == gid && m.join_status == JoinStatus.Approved)).length

/-- The number of GroupMembers rows of group `gid` whose `join_status` is
`Approved`. -/
def approvedCount (db : DB) (gid : Nat) : Nat :=
  approvedCountL db.members gid

/-- The §8 invariant: each group's stored `member_count` equals its number of
approved membership rows. -/
def CountInv (db : DB) : Prop :=
  ∀ g ∈ db.groups, g.member_count = (approvedCount db g.group_id : Int)

instance (db : DB) : Decidable (CountInv db) :=
  inferInstanceAs (Decidable (∀ g ∈ db.groups, g.member_count = (approvedCount db g.group_id : Int)))

/-!  Concrete fixture states used by witnesses and counterexamples. -/

/-- A fresh user with no group, whose string columns are derived from the id. -/
def mkUser (i : Nat) : UserRow :=
  { userid := i, username := toString i, password := toString i, email := toString i,
    phone_no := none, gender := none, marital_status := none, profile_picture := none,
    bio := none, current_group_id := none, is_group_owner := false }

/-- An initial database holding `n` fresh users and nothing else. -/
def mkDB (n : Nat) : DB :=
  { users := (List.range n).map mkUser, groups := [], members := [], messages := [],
    destinations := [], itinerary := [], next_id := n, next_message_id := 0, clock := 0 }

/-- A throwaway group name for the fixture scenarios. -/
def gname : String := toString 7

/-- User 0 creates public group 2 and user 1 joins it. -/
def sAuth : DB := runOps (mkDB 2) [.create 0 gname .Public [] none 50, .join 1 2]

/-- C1: the spec says a delete request by a non-owner fails with an
authorization error and leaves the group in place.  In the code,
`delete_group` takes no requester at all and checks no ownership: in the state
`sAuth`, group 2 is owned by user 0 and user 1 exists and is not the owner,
yet the only delete call the code can run — `delete_group` on the group id,
which is what any requester's route invocation performs — succeeds and removes
the Groups row. -/
theorem claim1_delete_without_authorization :
    (findGroup sAuth.groups 2).map (fun g => g.owner_id) = some 0 ∧
    (findUser sAuth.users 1).isSome = true ∧
    (delete_group sAuth 2).1 = true ∧
    findGroup ((delete_group sAuth 2).2).groups 2 = none := by
  decide

/-- User 0 creates public group 1, then, as owner, re-approves their own
(already `Approved`) membership row. -/
def sDouble : DB := runOps (mkDB 1)
  [.create 0 gname .Public [] none 50, .updateStatus 1 0 0 .Approved]

/-- C2 counterexample: the `member_count` invariant holds in the initial
state but is broken by a sequence of two lifecycle operations — after the
owner re-approves an already-approved member, `member_count` is 2 while the
group has a single `Approved` membership row. -/
theorem claim2_counterexample :
    CountInv (mkDB 1) ∧
    ¬ CountInv sDouble ∧
    (findGroup sDouble.groups 1).map (fun g => g.member_count) = some 2 ∧
    approvedCount sDouble 1 = 1 := by
  decide

/-- C3: `join_group` fails and changes nothing — in particular it inserts no
membership row — whenever the user already has an active group
(`current_group_id` set or `is_group_owner`), or the group is at capacity
(`member_count >= max_members`). -/
theorem claim3_join_rejected (db : DB) (uid gid : Nat)
    (h : (∃ u, findUser db.users uid = some u ∧
            (u.current_group_id ≠ none ∨ u.is_group_owner = true)) ∨
         (∃ g, findGroup db.groups gid = some g ∧ g.member_count ≥ g.max_members)) :
    join_group db uid gid = (false, db) := by
  unfold join_group
  rcases h with ⟨u, hu, hc⟩ | ⟨g, hg, hcap⟩
  · rw [hu]
    rcases hc with hc | hc
    · have hs : u.current_group_id.isSome = true := Option.ne_none_iff_isSome.mp hc
      simp [hs]
    · by_cases hs : u.current_group_id.isSome = true
      · simp [hs]
      · simp [hs, hc]
  · cases hfu : findUser db.users uid with
    | none => rfl
    | some u =>
      by_cases h1 : u.current_group_id.isSome = true
      · simp [h1]
      · by_cases h2 : u.is_group_owner = true
        · simp [h1, h2]
        · rw [hg] at *
          simp [h1, h2, hg, if_pos hcap]

/-- User 0 creates public group 2 with capacity `max_members = 1`. -/
def sFull : DB := runOps (mkDB 2) [.create 0 gname .Public [] none 1]

/-- Witness for C3: joining the full group `sFull` (member_count = 1 =
max_members) is rejected without change. -/
theorem claim3_witness : join_group sFull 1 2 = (false, sFull) :=
  claim3_join_rejected sFull 1 2
    (Or.inr ⟨{ group_id := 2, group_name := gname, group_description := none,
               group_type := GroupType.Public, owner_id := 0, member_count := 1,
               max_members := 1 },
             by decide, by decide⟩)

/-- C6 counterexample: in `sAuth`, user 1 holds an `Approved` row in group 2;
the owner (user 0) transitions the row to `Rejected`, the call reports
success, and — contrary to the claim that a status rejection removes the
GroupMembers row — the (group 2, user 1) row still exists afterwards. -/
theorem claim6_counterexample :
    (∃ m ∈ sAuth.members, m.group_id = 2 ∧ m.user_id = 1 ∧
        m.join_status = JoinStatus.Approved) ∧
    (findGroup sAuth.groups 2).map (fun g => g.owner_id) = some 0 ∧
    (update_member_status sAuth 2 0 1 JoinStatus.Rejected).1 = true ∧
    ∃ m ∈ ((update_member_status sAuth 2 0 1 JoinStatus.Rejected).2).members,
      m.group_id = 2 ∧ m.user_id = 1 ∧ m.join_status = JoinStatus.Rejected := by
  decide

/-- C6 amended: a status transition to `Rejected` never removes a
GroupMembers row: the members table either is untouched (failed call) or is
the pointwise update that sets the targeted row's `join_status` to
`Rejected`; its length is always preserved. -/
theorem claim6_amended_reject_keeps_row (db : DB) (gid o mu : Nat) :
    (((update_member_status db gid o mu JoinStatus.Rejected).2).members.length =
        db.members.length) ∧
    (((update_member_status db gid o mu JoinStatus.Rejected).2).members = db.members ∨
      ((update_member_status db gid o mu JoinStatus.Rejected).2).members =
        db.members.map (fun m =>
          if m.group_id == gid && m.user_id == mu then
            { m with join_status := JoinStatus.Rejected }
          else m)) := by
  simp only [update_member_status]
  repeat' split
  all_goals first
    | exact ⟨rfl, Or.inl rfl⟩
    | exact ⟨by simp, Or.inr rfl⟩

/-- C8: `send_message` fails and appends nothing unless the sender has an
`Approved` GroupMembers row for the group; for an approved sender (who exists,
for an existing group) exactly one GroupMessages row carrying the text is
appended and every existing row is kept unchanged. -/
theorem claim8_send_message (db : DB) (sid gid : Nat) (text : String) :
    ((∀ m ∈ db.members, ¬(m.group_id = gid ∧ m.user_id = sid ∧
        m.join_status = JoinStatus.Approved)) →
      send_message db sid gid text = (false, db)) ∧
    (∀ u, findUser db.users sid = some u → (findGroup db.groups gid).isSome = true →
      (∃ m ∈ db.members, m.group_id = gid ∧ m.user_id = sid ∧
        m.join_status = JoinStatus.Approved) →
      send_message db sid gid text = (true, { db with
        messages := db.messages ++
          [{ message_id := db.next_message_id, group_id := gid, sender_id := sid,
             sender_username := u.username, message := text, timestamp := db.clock }],
        next_message_id := db.next_message_id + 1,
        clock := db.clock + 1 })) := by
  constructor
  · intro h
    unfold send_message
    cases hfu : findUser db.users sid with
    | none => rfl
    | some u =>
      cases hfg : findGroup db.groups gid with
      | none => rfl
      | some g =>
        have hany : (db.members.any fun m =>
            m.group_id == gid && m.user_id == sid &&
              m.join_status == JoinStatus.Approved) = false := by
          rw [List.any_eq_false]
          intro m hm
          have hh := h m hm
          simp only [Bool.and_eq_true, beq_iff_eq, not_and] at hh ⊢
          tauto
        simp [hany]
  · intro u hu hg hex
    unfold send_message
    rw [hu]
    cases hfg : findGroup db.groups gid with
    | none => rw [hfg] at hg; cases hg
    | some g =>
      obtain ⟨m, hm, h1, h2, h3⟩ := hex
      have hany : (db.members.any fun m =>
          m.group_id == gid && m.user_id == sid &&
            m.join_status == JoinStatus.Approved) = true := by
        rw [List.any_eq_true]
        exact ⟨m, hm, by simp [h1, h2, h3]⟩
      simp [hany]

/-- Inserting an element strictly older than everything in the list (by the
descending-timestamp order) lands at the end. -/
theorem insertDesc_all_lt (m : MessageRow) (l : List MessageRow)
    (h : ∀ x ∈ l, m.timestamp < x.timestamp) : insertDesc m l = l ++ [m] := by
  induction l with
  | nil => rfl
  | cons x xs ih =>
    have hx := h x (List.mem_cons_self x xs)
    simp only [insertDesc]
    rw [if_pos (Nat.le_of_lt hx), ih (fun y hy => h y (List.mem_cons_of_mem x hy))]
    rfl

/-- Sorting a strictly ascending list by descending timestamp reverses it. -/
theorem orderByTimestampDesc_ascending (l : List MessageRow)
    (h : l.Pairwise (fun a b => a.timestamp < b.timestamp)) :
    orderByTimestampDesc l = l.reverse := by
  induction l with
  | nil => rfl
  | cons x xs ih =>
    rw [List.pairwise_cons] at h
    simp only [orderByTimestampDesc]
    rw [ih h.2, insertDesc_all_lt]
    · simp
    · intro y hy
      exact h.1 y (List.mem_reverse.mp hy)

/-- C9: for a group whose stored messages have strictly ascending timestamps
(which `send_message`'s strictly increasing clock guarantees), the read
operation returns exactly the `N` most recent messages — all of them when
fewer than `N` exist — in ascending timestamp order. -/
theorem claim9_read_recent_ascending (db : DB) (gid N : Nat)
    (hasc : (db.messages.filter (fun m => m.group_id == gid)).Pairwise
      (fun a b => a.timestamp < b.timestamp)) :
    get_group_messages db gid N =
      (db.messages.filter (fun m => m.group_id == gid)).drop
        ((db.messages.filter (fun m => m.group_id == gid)).length - N) ∧
    (get_group_messages db gid N).Pairwise (fun a b => a.timestamp < b.timestamp) ∧
    (get_group_messages db gid N).length =
      min N (db.messages.filter (fun m => m.group_id == gid)).length := by
  have h1 : get_group_messages db gid N =
      (db.messages.filter (fun m => m.group_id == gid)).drop
        ((db.messages.filter (fun m => m.group_id == gid)).length - N) := by
    unfold get_group_messages
    rw [orderByTimestampDesc_ascending _ hasc, ← List.rtake_eq_reverse_take_reverse]
    rfl
  refine ⟨h1, ?_, ?_⟩
  · rw [h1]
    exact List.Pairwise.sublist (List.drop_sublist _ _) hasc
  · rw [h1, List.length_drop]
    omega

/-- Two messages sent to group 2 of `sAuth`: one by the owner, one by the
joined member. -/
def sChat : DB :=
  (send_message (send_message sAuth 0 2 (toString 0)).2 1 2 (toString 1)).2

/-- Witness for C9: reading the last message of group 2 in `sChat` returns
the single most recent message, in order. -/
theorem claim9_witness :
    get_group_messages sChat 2 1 =
      (sChat.messages.filter (fun m => m.group_id == 2)).drop
        ((sChat.messages.filter (fun m => m.group_id == 2)).length - 1) ∧
    (get_group_messages sChat 2 1).Pairwise (fun a b => a.timestamp < b.timestamp) ∧
    (get_group_messages sChat 2 1).length =
      min 1 (sChat.messages.filter (fun m => m.group_id == 2)).length :=
  claim9_read_recent_ascending sChat 2 1 (by decide)

/-- Equality of two Users rows on every column outside the five allow-listed
profile columns of `update_user_profile`. -/
def offProfileEq (u u' : UserRow) : Prop :=
  u'.userid = u.userid ∧ u'.username = u.username ∧ u'.password = u.password ∧
  u'.email = u.email ∧ u'.current_group_id = u.current_group_id ∧
  u'.is_group_owner = u.is_group_owner

theorem forall2_map_self {α : Type} (R : α → α → Prop) (f : α → α) (l : List α)
    (h : ∀ a ∈ l, R a (f a)) : List.Forall₂ R l (l.map f) := by
  induction l with
  | nil => exact List.Forall₂.nil
  | cons x xs ih =>
    exact List.Forall₂.cons (h x (by simp)) (ih fun a ha => h a (by simp [ha]))

/-- C10: `update_user_profile` only ever touches the five allow-listed profile
columns of the row whose `userid` matches: every user row keeps all other
columns, rows of other users are untouched entirely, the other tables are
untouched, keyword keys outside the allow list are ignored (the result only
depends on the kwargs at the five allow-listed keys), and the call fails
without modification when no allow-listed field is supplied or no such user
exists. -/
theorem claim10_profile_update (db : DB) (uid : Nat) (k k' : String → Option String) :
    List.Forall₂ (fun u u' => offProfileEq u u' ∧ (u.userid ≠ uid → u' = u))
      db.users ((update_user_profile db uid k).2).users ∧
    ((update_user_profile db uid k).2).groups = db.groups ∧
    ((update_user_profile db uid k).2).members = db.members ∧
    ((update_user_profile db uid k).2).messages = db.messages ∧
    ((∀ f ∈ allowed_fields, k f = k' f) →
      update_user_profile db uid k = update_user_profile db uid k') ∧
    ((∀ f ∈ allowed_fields, k f = none) → update_user_profile db uid k = (false, db)) ∧
    (findUser db.users uid = none → update_user_profile db uid k = (false, db)) := by
  have hframe : ((update_user_profile db uid k).2).users = db.users ∨
      ((update_user_profile db uid k).2).users = db.users.map (fun v =>
        if v.userid == uid then applyProfile k v else v) := by
    simp only [update_user_profile]
    repeat' split
    all_goals first
      | exact Or.inl rfl
      | exact Or.inr rfl
  have hother : ((update_user_profile db uid k).2).groups = db.groups ∧
      ((update_user_profile db uid k).2).members = db.members ∧
      ((update_user_profile db uid k).2).messages = db.messages := by
    simp only [update_user_profile]
    repeat' split
    all_goals exact ⟨rfl, rfl, rfl⟩
  refine ⟨?_, hother.1, hother.2.1, hother.2.2, ?_, ?_, ?_⟩
  · rcases hframe with h | h
    · rw [h]
      exact (List.forall₂_same).mpr (fun u hu => ⟨⟨rfl, rfl, rfl, rfl, rfl, rfl⟩, fun _ => rfl⟩)
    · rw [h]
      apply forall2_map_self
      intro v hv
      by_cases hvid : (v.userid == uid) = true
      · rw [if_pos hvid]
        refine ⟨⟨rfl, rfl, rfl, rfl, rfl, rfl⟩, fun hne => ?_⟩
        exact absurd (by simpa using hvid) hne
      · rw [if_neg hvid]
        exact ⟨⟨rfl, rfl, rfl, rfl, rfl, rfl⟩, fun _ => rfl⟩
  · intro h
    have h1 := h ("phone_no") (by decide)
    have h2 := h ("gender") (by decide)
    have h3 := h ("marital_status") (by decide)
    have h4 := h ("profile_picture") (by decide)
    have h5 := h ("bio") (by decide)
    have happ : applyProfile k = applyProfile k' := by
      funext u
      simp only [applyProfile, field_phone_no, field_gender, field_marital_status,
        field_profile_picture, field_bio]
      rw [h1, h2, h3, h4, h5]
    have hallEq : (allowed_fields.all fun f => (k f).isNone) =
        (allowed_fields.all fun f => (k' f).isNone) := by
      simp only [allowed_fields, List.all_cons, List.all_nil]
      rw [h1, h2, h3, h4, h5]
    simp only [update_user_profile, hallEq, happ]
  · intro h
    have hall : (allowed_fields.all fun f => (k f).isNone) = true := by
      rw [List.all_eq_true]
      intro f hf
      rw [h f hf]
      rfl
    unfold update_user_profile
    rw [if_pos hall]
  · intro h
    unfold update_user_profile
    by_cases hall : (allowed_fields.all fun f => (k f).isNone) = true
    · rw [if_pos hall]
    · rw [if_neg hall, h]

/-- A kwargs map supplying only the `bio` field. -/
def kSome : String → Option String := fun f =>
  if f = field_bio then some field_bio else none

/-- A kwargs map agreeing with `kSome` on the allow list but supplying junk
values at every other key. -/
def kJunk : String → Option String := fun f =>
  if f ∈ allowed_fields then kSome f else some f

/-- A kwargs map supplying nothing. -/
def kNone : String → Option String := fun _ => none

/-- Witness for C10: junk keys outside the allow list are ignored, an update
with no allow-listed field fails without modification, and an update for an
unknown user id fails without modification. -/
theorem claim10_witness :
    update_user_profile (mkDB 1) 0 kJunk = update_user_profile (mkDB 1) 0 kSome ∧
    update_user_profile (mkDB 1) 0 kNone = (false, mkDB 1) ∧
    update_user_profile (mkDB 1) 7 kSome = (false, mkDB 1) :=
  ⟨(claim10_profile_update (mkDB 1) 0 kJunk kSome).2.2.2.2.1
      (by intro f hf; simp [kJunk, hf]),
   (claim10_profile_update (mkDB 1) 0 kNone kNone).2.2.2.2.2.1
      (by intro f hf; rfl),
   (claim10_profile_update (mkDB 1) 7 kSome kSome).2.2.2.2.2.2
      (by decide)⟩

/-- `find?` after a keyed pointwise update: updating exactly the rows matching
the key predicate (by a key-preserving function) maps the found row. -/
theorem find?_map_update {α : Type} (l : List α) (p : α → Bool) (f : α → α)
    (hpf : ∀ a, p (f a) = p a) :
    (l.map (fun a => if p a then f a else a)).find? p = (l.find? p).map f := by
  induction l with
  | nil => rfl
  | cons x xs ih =>
    by_cases hx : p x = true
    · rw [List.map_cons, if_pos hx, List.find?_cons_of_pos _ (by rw [hpf]; exact hx),
        List.find?_cons_of_pos _ hx]
      rfl
    · rw [List.map_cons, if_neg hx, List.find?_cons_of_neg _ hx,
        List.find?_cons_of_neg _ hx, ih]

theorem findUser_map_update (l : List UserRow) (uid : Nat) (f : UserRow → UserRow)
    (hf : ∀ u, (f u).userid = u.userid) :
    findUser (l.map (fun v => if v.userid == uid then f v else v)) uid =
      (findUser l uid).map f := by
  unfold findUser
  exact find?_map_update l _ f (fun a => by rw [hf])

theorem findGroup_map_update (l : List GroupRow) (gid : Nat) (f : GroupRow → GroupRow)
    (hf : ∀ g, (f g).group_id = g.group_id) :
    findGroup (l.map (fun h => if h.group_id == gid then f h else h)) gid =
      (findGroup l gid).map f := by
  unfold findGroup
  exact find?_map_update l _ f (fun a => by rw [hf])

/-- C4: for a user eligible to join (exists, no current group, owns none, no
prior membership row for the pair) and a non-full existing group: joining a
Public group appends an `Approved` row, sets the user's pointer to the group
and increments `member_count` by exactly 1; joining a Private group appends a
`Pending` row and changes nothing else — neither the pointer nor
`member_count`. -/
theorem claim4_join_effects (db : DB) (uid gid : Nat) (u : UserRow) (g : GroupRow)
    (hu : findUser db.users uid = some u) (hcur : u.current_group_id = none)
    (hown : u.is_group_owner = false) (hg : findGroup db.groups gid = some g)
    (hcap : g.member_count < g.max_members)
    (hrow : ∀ m ∈ db.members, ¬(m.group_id = gid ∧ m.user_id = uid)) :
    (g.group_type = GroupType.Public →
      (join_group db uid gid).1 = true ∧
      ((join_group db uid gid).2).members = db.members ++
        [{ member_id := db.next_id, group_id := gid, user_id := uid,
           username := u.username, join_status := JoinStatus.Approved,
           role := Role.Member }] ∧
      findUser ((join_group db uid gid).2).users uid =
        some { u with current_group_id := some gid } ∧
      findGroup ((join_group db uid gid).2).groups gid =
        some { g with member_count := g.member_count + 1 }) ∧
    (g.group_type = GroupType.Private →
      join_group db uid gid = (true, { db with
        members := db.members ++
          [{ member_id := db.next_id, group_id := gid, user_id := uid,
             username := u.username, join_status := JoinStatus.Pending,
             role := Role.Member }],
        next_id := db.next_id + 1 })) := by
  have hany : (db.members.any fun m => m.group_id == gid && m.user_id == uid) = false := by
    rw [List.any_eq_false]
    intro m hm
    have := hrow m hm
    simp only [Bool.and_eq_true, beq_iff_eq]
    tauto
  constructor
  · intro hpub
    have hred : join_group db uid gid = (true, { db with
        users := db.users.map (fun v =>
          if v.userid == uid then { v with current_group_id := some gid } else v),
        groups := db.groups.map (fun h =>
          if h.group_id == gid then { h with member_count := h.member_count + 1 }
          else h),
        members := db.members ++
          [{ member_id := db.next_id, group_id := gid, user_id := uid,
             username := u.username, join_status := JoinStatus.Approved,
             role := Role.Member }],
        next_id := db.next_id + 1 }) := by
      simp [join_group, hu, hcur, hown, hg, hany, hpub, not_le.mpr hcap]
    rw [hred]
    refine ⟨rfl, rfl, ?_, ?_⟩
    · show findUser (db.users.map (fun v =>
        if v.userid == uid then { v with current_group_id := some gid } else v)) uid = _
      rw [findUser_map_update db.users uid
        (fun v => { v with current_group_id := some gid }) (fun v => rfl), hu]
      rfl
    · show findGroup (db.groups.map (fun h =>
        if h.group_id == gid then { h with member_count := h.member_count + 1 }
        else h)) gid = _
      rw [findGroup_map_update db.groups gid
        (fun h => { h with member_count := h.member_count + 1 }) (fun h => rfl), hg]
      rfl
  · intro hpriv
    simp [join_group, hu, hcur, hown, hg, hany, hpriv, not_le.mpr hcap]

/-- Users 0 and 1 own groups 3 (Public) and 5 (Private); user 2 first asks to
join the private group 5 (landing in `Pending`), then joins the public group 3
(becoming `Approved` there, pointer at 3), and then the owner of group 5
approves user 2, which repoints `current_group_id` at 5 while the `Approved`
row in group 3 remains. -/
def sMulti : DB := runOps (mkDB 3)
  [.create 0 gname .Public [] none 50, .create 1 gname .Private [] none 50,
   .join 2 5, .join 2 3, .updateStatus 5 1 2 .Approved]

/-- C5 counterexample: in `sMulti`, user 2 holds an `Approved` row in group 3
and the owner (user 0) sets it to `Rejected`: the call succeeds, yet — against
the claim that a Rejected transition from an Approved state decrements
`member_count` and clears the pointer — group 3 keeps `member_count` 2 and
the member's `current_group_id` stays `some 5`. -/
theorem claim5_counterexample :
    (∃ m ∈ sMulti.members, m.group_id = 3 ∧ m.user_id = 2 ∧
        m.join_status = JoinStatus.Approved) ∧
    (findGroup sMulti.groups 3).map (fun g => g.owner_id) = some 0 ∧
    (update_member_status sMulti 3 0 2 JoinStatus.Rejected).1 = true ∧
    (findGroup ((update_member_status sMulti 3 0 2 JoinStatus.Rejected).2).groups 3).map
        (fun g => g.member_count) = some 2 ∧
    (findUser ((update_member_status sMulti 3 0 2 JoinStatus.Rejected).2).users 2).map
        (fun u => u.current_group_id) = some (some 5) := by
  decide

/-- C5 amended: `update_member_status` fails whenever the caller is not the
group's owner.  When the owner targets an existing membership row: setting
`Approved` updates the row, increments `member_count` by 1 and repoints the
member's `current_group_id` at the group (whatever the previous status);
setting `Rejected` or `Blocked` updates the row and decrements `member_count`
/ clears the pointer precisely when the member's `current_group_id` equals
this group — otherwise only the row's status changes. -/
theorem claim5_amended_update_status (db : DB) (gid o mu : Nat) (ns : JoinStatus) :
    ((∀ g, findGroup db.groups gid = some g → g.owner_id ≠ o) →
      update_member_status db gid o mu ns = (false, db)) ∧
    (∀ g, findGroup db.groups gid = some g → g.owner_id = o →
      (∃ m ∈ db.members, m.group_id = gid ∧ m.user_id = mu) →
      ((update_member_status db gid o mu JoinStatus.Approved).1 = true ∧
       ((update_member_status db gid o mu JoinStatus.Approved).2).members =
         db.members.map (fun m =>
           if m.group_id == gid && m.user_id == mu then
             { m with join_status := JoinStatus.Approved } else m) ∧
       findGroup ((update_member_status db gid o mu JoinStatus.Approved).2).groups gid =
         some { g with member_count := g.member_count + 1 } ∧
       (∀ v, findUser db.users mu = some v →
         findUser ((update_member_status db gid o mu JoinStatus.Approved).2).users mu =
           some { v with current_group_id := some gid }))) ∧
    (∀ g v, findGroup db.groups gid = some g → g.owner_id = o →
      (∃ m ∈ db.members, m.group_id = gid ∧ m.user_id = mu) →
      findUser db.users mu = some v →
      (ns = JoinStatus.Rejected ∨ ns = JoinStatus.Blocked) →
      ((v.current_group_id = some gid →
         (update_member_status db gid o mu ns).1 = true ∧
         ((update_member_status db gid o mu ns).2).members =
           db.members.map (fun m =>
             if m.group_id == gid && m.user_id == mu then
               { m with join_status := ns } else m) ∧
         findGroup ((update_member_status db gid o mu ns).2).groups gid =
           some { g with member_count := g.member_count - 1 } ∧
         findUser ((update_member_status db gid o mu ns).2).users mu =
           some { v with current_group_id := none }) ∧
       (v.current_group_id ≠ some gid →
         update_member_status db gid o mu ns = (true, { db with
           members := db.members.map (fun m =>
             if m.group_id == gid && m.user_id == mu then
               { m with join_status := ns } else m) })))) := by
  refine ⟨?_, ?_, ?_⟩
  · intro h
    cases hg : findGroup db.groups gid with
    | none => simp [update_member_status, hg]
    | some g => simp [update_member_status, hg, h g hg]
  · intro g hg ho hex
    have hany : (db.members.any fun m => m.group_id == gid && m.user_id == mu) = true := by
      rw [List.any_eq_true]
      obtain ⟨m, hm, h1, h2⟩ := hex
      exact ⟨m, hm, by simp [h1, h2]⟩
    have hred : update_member_status db gid o mu JoinStatus.Approved = (true, { db with
        members := db.members.map (fun m =>
          if m.group_id == gid && m.user_id == mu then
            { m with join_status := JoinStatus.Approved } else m),
        users := db.users.map (fun v =>
          if v.userid == mu then { v with current_group_id := some gid } else v),
        groups := db.groups.map (fun h =>
          if h.group_id == gid then { h with member_count := h.member_count + 1 }
          else h) }) := by
      simp [update_member_status, hg, ho, hany]
    rw [hred]
    refine ⟨rfl, rfl, ?_, ?_⟩
    · show findGroup (db.groups.map (fun h =>
        if h.group_id == gid then { h with member_count := h.member_count + 1 }
        else h)) gid = _
      rw [findGroup_map_update db.groups gid
        (fun h => { h with member_count := h.member_count + 1 }) (fun h => rfl), hg]
      rfl
    · intro v hv
      show findUser (db.users.map (fun w =>
        if w.userid == mu then { w with current_group_id := some gid } else w)) mu = _
      rw [findUser_map_update db.users mu
        (fun w => { w with current_group_id := some gid }) (fun w => rfl), hv]
      rfl
  · intro g v hg ho hex hv hns
    have hany : (db.members.any fun m => m.group_id == gid && m.user_id == mu) = true := by
      rw [List.any_eq_true]
      obtain ⟨m, hm, h1, h2⟩ := hex
      exact ⟨m, hm, by simp [h1, h2]⟩
    constructor
    · intro hcur
      have hred : update_member_status db gid o mu ns = (true, { db with
          members := db.members.map (fun m =>
            if m.group_id == gid && m.user_id == mu then
              { m with join_status := ns } else m),
          users := db.users.map (fun w =>
            if w.userid == mu then { w with current_group_id := none } else w),
          groups := db.groups.map (fun h =>
            if h.group_id == gid then { h with member_count := h.member_count - 1 }
            else h) }) := by
        rcases hns with hns | hns <;> subst hns <;>
          simp [update_member_status, hg, ho, hany, hv, hcur]
      rw [hred]
      refine ⟨rfl, rfl, ?_, ?_⟩
      · show findGroup (db.groups.map (fun h =>
          if h.group_id == gid then { h with member_count := h.member_count - 1 }
          else h)) gid = _
        rw [findGroup_map_update db.groups gid
          (fun h => { h with member_count := h.member_count - 1 }) (fun h => rfl), hg]
        rfl
      · show findUser (db.users.map (fun w =>
          if w.userid == mu then { w with current_group_id := none } else w)) mu = _
        rw [findUser_map_update db.users mu
          (fun w => { w with current_group_id := none }) (fun w => rfl), hv]
        rfl
    · intro hcur
      rcases hns with hns | hns <;> subst hns <;>
        simp [update_member_status, hg, ho, hany, hv, hcur]

/-- Witness for C5 (amended): in `sAuth` (group 2 owned by user 0, user 1
approved), a non-owner caller is rejected, and blocking user 1 — whose pointer
is at group 2 — decrements `member_count` and clears the pointer. -/
theorem claim5_witness :
    update_member_status sAuth 2 1 1 JoinStatus.Approved = (false, sAuth) ∧
    ((update_member_status sAuth 2 0 1 JoinStatus.Blocked).1 = true ∧
      findGroup ((update_member_status sAuth 2 0 1 JoinStatus.Blocked).2).groups 2 =
        some { group_id := 2, group_name := gname, group_description := none,
               group_type := GroupType.Public, owner_id := 0, member_count := 1,
               max_members := 50 }) := by
  constructor
  · refine (claim5_amended_update_status sAuth 2 1 1 JoinStatus.Approved).1 ?_
    intro g hg
    have hx : findGroup sAuth.groups 2 =
        some { group_id := 2, group_name := gname, group_description := none,
               group_type := GroupType.Public, owner_id := 0, member_count := 2,
               max_members := 50 } := by decide
    have hgc := Option.some.inj (hg.symm.trans hx)
    subst hgc
    decide
  · have h := ((claim5_amended_update_status sAuth 2 0 1 JoinStatus.Blocked).2.2
      { group_id := 2, group_name := gname, group_description := none,
        group_type := GroupType.Public, owner_id := 0, member_count := 2,
        max_members := 50 }
      { userid := 1, username := toString 1, password := toString 1,
        email := toString 1, phone_no := none, gender := none,
        marital_status := none, profile_picture := none, bio := none,
        current_group_id := some 2, is_group_owner := false }
      (by decide) (by decide)
      ⟨{ member_id := 4, group_id := 2, user_id := 1, username := toString 1,
         join_status := JoinStatus.Approved, role := Role.Member },
        by decide, by decide, by decide⟩
      (by decide) (Or.inr rfl)).1 (by decide)
    exact ⟨h.1, h.2.2.1⟩

/-- Users 0 and 1 own the Public group 3 and the Private group 5; user 2 is
free to join. -/
def sTwoGroups : DB := runOps (mkDB 3)
  [.create 0 gname .Public [] none 50, .create 1 gname .Private [] none 50]

/-- Witness for C4: user 2 joins the public group 3 (approved, count becomes
2) and could instead request the private group 5 (request accepted as
pending). -/
theorem claim4_witness :
    (join_group sTwoGroups 2 3).1 = true ∧
    (findGroup ((join_group sTwoGroups 2 3).2).groups 3).map (fun g => g.member_count) =
      some 2 ∧
    (join_group sTwoGroups 2 5).1 = true := by
  have T3 := claim4_join_effects sTwoGroups 2 3 (mkUser 2)
    { group_id := 3, group_name := gname, group_description := none,
      group_type := GroupType.Public, owner_id := 0, member_count := 1,
      max_members := 50 }
    (by decide) rfl rfl (by decide) (by decide) (by decide)
  have T5 := claim4_join_effects sTwoGroups 2 5 (mkUser 2)
    { group_id := 5, group_name := gname, group_description := none,
      group_type := GroupType.Private, owner_id := 1, member_count := 1,
      max_members := 50 }
    (by decide) rfl rfl (by decide) (by decide) (by decide)
  obtain ⟨r1, _, _, r4⟩ := T3.1 rfl
  refine ⟨r1, by rw [r4]; rfl, ?_⟩
  rw [T5.2 rfl]

/-- Group 2 (Public, owner 0) with user 1 joined as `Approved`, after which
the owner downgrades user 1's row to `Pending`; the code leaves user 1's
`current_group_id` pointing at group 2. -/
def sPendingLeave : DB := runOps (mkDB 2)
  [.create 0 gname .Public [] none 50, .join 1 2, .updateStatus 2 0 1 .Pending]

/-- C7 counterexample: in `sPendingLeave`, user 1 is not an approved member of
any group (the only row is `Pending`), yet — against the claim that `leave`
fails for users who are not currently approved members — the leave succeeds,
removes the pending row and decrements `member_count`. -/
theorem claim7_counterexample :
    (∀ m ∈ sPendingLeave.members, m.user_id = 1 →
      m.join_status = JoinStatus.Pending) ∧
    (leave_group sPendingLeave 1).1 = some true ∧
    ((leave_group sPendingLeave 1).2).members.length + 1 =
      sPendingLeave.members.length ∧
    (findGroup ((leave_group sPendingLeave 1).2).groups 2).map
      (fun g => g.member_count) = some 1 := by
  decide

/-- C7 amended: `leave_group` fails and changes nothing when the user does
not exist, has no `current_group_id`, or is a group owner; when the user's
pointer is set and the user is not an owner, the call succeeds, removes the
(group, user) membership rows whatever their status, clears the pointer, and
decrements the group's `member_count` by exactly 1. -/
theorem claim7_amended_leave (db : DB) (uid : Nat) :
    (findUser db.users uid = none → leave_group db uid = (some false, db)) ∧
    (∀ u, findUser db.users uid = some u → u.current_group_id = none →
      leave_group db uid = (some false, db)) ∧
    (∀ u, findUser db.users uid = some u → u.is_group_owner = true →
      leave_group db uid = (some false, db)) ∧
    (∀ u gid g, findUser db.users uid = some u → u.current_group_id = some gid →
      u.is_group_owner = false → findGroup db.groups gid = some g →
      (leave_group db uid).1 = some true ∧
      ((leave_group db uid).2).members = db.members.filter (fun m =>
        !(m.group_id == gid && m.user_id == uid)) ∧
      findUser ((leave_group db uid).2).users uid =
        some { u with current_group_id := none } ∧
      findGroup ((leave_group db uid).2).groups gid =
        some { g with member_count := g.member_count - 1 }) := by
  refine ⟨?_, ?_, ?_, ?_⟩
  · intro h
    simp [leave_group, h]
  · intro u hu hcu
    simp [leave_group, hu, hcu]
  · intro u hu hown
    cases hc : u.current_group_id with
    | none => simp [leave_group, hu, hc]
    | some gid => simp [leave_group, hu, hc, hown]
  · intro u gid g hu hcur hown hg
    have hred : leave_group db uid = (some true, { db with
        members := db.members.filter (fun m =>
          !(m.group_id == gid && m.user_id == uid)),
        users := db.users.map (fun v =>
          if v.userid == uid then { v with current_group_id := none } else v),
        groups := db.groups.map (fun h =>
          if h.group_id == gid then { h with member_count := h.member_count - 1 }
          else h) }) := by
      simp [leave_group, hu, hcur, hown, hg]
    rw [hred]
    refine ⟨rfl, rfl, ?_, ?_⟩
    · show findUser (db.users.map (fun v =>
        if v.userid == uid then { v with current_group_id := none } else v)) uid = _
      rw [findUser_map_update db.users uid
        (fun v => { v with current_group_id := none }) (fun v => rfl), hu]
      rfl
    · show findGroup (db.groups.map (fun h =>
        if h.group_id == gid then { h with member_count := h.member_count - 1 }
        else h)) gid = _
      rw [findGroup_map_update db.groups gid
        (fun h => { h with member_count := h.member_count - 1 }) (fun h => rfl), hg]
      rfl

/-- Witness for C7 (amended): in `sAuth`, the owner's leave is rejected, and
user 1's leave succeeds, clearing the pointer and decrementing the count. -/
theorem claim7_witness :
    leave_group sAuth 0 = (some false, sAuth) ∧
    (leave_group sAuth 1).1 = some true ∧
    (findGroup ((leave_group sAuth 1).2).groups 2).map (fun g => g.member_count) =
      some 1 := by
  have hown := (claim7_amended_leave sAuth 0).2.2.1
    { userid := 0, username := toString 0, password := toString 0,
      email := toString 0, phone_no := none, gender := none, marital_status := none,
      profile_picture := none, bio := none, current_group_id := some 2,
      is_group_owner := true } (by decide) rfl
  have hleave := (claim7_amended_leave sAuth 1).2.2.2
    { userid := 1, username := toString 1, password := toString 1,
      email := toString 1, phone_no := none, gender := none, marital_status := none,
      profile_picture := none, bio := none, current_group_id := some 2,
      is_group_owner := false } 2
    { group_id := 2, group_name := gname, group_description := none,
      group_type := GroupType.Public, owner_id := 0, member_count := 2,
      max_members := 50 }
    (by decide) rfl rfl (by decide)
  exact ⟨hown, hleave.1, by rw [hleave.2.2.2]; rfl⟩

/-- Witness for C8: a non-member's message to group 3 is rejected; the
approved member 1's message to group 2 is appended. -/
theorem claim8_witness :
    send_message sTwoGroups 2 3 gname = (false, sTwoGroups) ∧
    send_message sAuth 1 2 gname = (true, { sAuth with
      messages := sAuth.messages ++
        [{ message_id := sAuth.next_message_id, group_id := 2, sender_id := 1,
           sender_username := toString 1, message := gname,
           timestamp := sAuth.clock }],
      next_message_id := sAuth.next_message_id + 1,
      clock := sAuth.clock + 1 }) :=
  ⟨(claim8_send_message sTwoGroups 2 3 gname).1 (by decide),
   (claim8_send_message sAuth 1 2 gname).2
     { userid := 1, username := toString 1, password := toString 1,
       email := toString 1, phone_no := none, gender := none, marital_status := none,
       profile_picture := none, bio := none, current_group_id := some 2,
       is_group_owner := false }
     (by decide) (by decide)
     ⟨{ member_id := 4, group_id := 2, user_id := 1, username := toString 1,
        join_status := JoinStatus.Approved, role := Role.Member },
      by decide, by decide, by decide, by decide⟩⟩

/-!  The invariant machinery for the `member_count` claim. -/

/-- Well-formedness facts guaranteed by the SQL schema: unique group ids,
unique user ids, distinct `(group_id, user_id)` membership pairs, resolving
foreign keys, and freshness of the id counter. -/
def WF (db : DB) : Prop :=
  (db.groups.map (fun g => g.group_id)).Nodup ∧
  (db.users.map (fun u => u.userid)).Nodup ∧
  (db.members.map (fun m => (m.group_id, m.user_id))).Nodup ∧
  (∀ m ∈ db.members, ∃ g ∈ db.groups, g.group_id = m.group_id) ∧
  (∀ m ∈ db.members, ∃ u ∈ db.users, u.userid = m.user_id) ∧
  (∀ u ∈ db.users, ∀ gid, u.current_group_id = some gid →
    ∃ g ∈ db.groups, g.group_id = gid) ∧
  (∀ g ∈ db.groups, g.group_id < db.next_id) ∧
  (∀ m ∈ db.members, m.member_id < db.next_id)

/-- Pointer–status link: a user's `current_group_id` points exactly at the
groups in which the user holds an `Approved` membership row. -/
def LinkInv (db : DB) : Prop :=
  ∀ u ∈ db.users,
    (∀ m ∈ db.members, m.user_id = u.userid →
      m.join_status = JoinStatus.Approved → u.current_group_id = some m.group_id) ∧
    (∀ gid, u.current_group_id = some gid → ∃ m ∈ db.members,
      m.group_id = gid ∧ m.user_id = u.userid ∧ m.join_status = JoinStatus.Approved)

/-- The `update_member_status` calls that keep the bookkeeping sound:
`Approved` only for a member whose row is not already `Approved` and whose
pointer is unset; `Pending` only for a member whose row is not `Approved`;
`Rejected`/`Blocked` always. -/
def StatusOk (db : DB) (gid mu : Nat) : JoinStatus → Prop
  | JoinStatus.Approved =>
      (∀ m ∈ db.members, m.group_id = gid → m.user_id = mu →
        m.join_status ≠ JoinStatus.Approved) ∧
      (∀ u ∈ db.users, u.userid = mu → u.current_group_id = none)
  | JoinStatus.Pending =>
      ∀ m ∈ db.members, m.group_id = gid → m.user_id = mu →
        m.join_status ≠ JoinStatus.Approved
  | _ => True

/-- A lifecycle operation whose status transition (if any) is sound in the
given state. -/
def GoodOp (db : DB) : LifecycleOp → Prop
  | .updateStatus g _ m ns => StatusOk db g m ns
  | _ => True

/-- A sequence of lifecycle operations, each sound in the state it runs in. -/
def GoodSeq : DB → List LifecycleOp → Prop
  | _, [] => True
  | db, op :: ops => GoodOp db op ∧ GoodSeq (applyOp db op) ops

/-- The combined inductive invariant. -/
def DBInv (db : DB) : Prop := WF db ∧ CountInv db ∧ LinkInv db

theorem findUser_eq_some {l : List UserRow} {uid : Nat} {u : UserRow}
    (h : findUser l uid = some u) : u ∈ l ∧ u.userid = uid :=
  ⟨List.mem_of_find?_eq_some h, by simpa using List.find?_some h⟩

theorem findGroup_eq_some {l : List GroupRow} {gid : Nat} {g : GroupRow}
    (h : findGroup l gid = some g) : g ∈ l ∧ g.group_id = gid :=
  ⟨List.mem_of_find?_eq_some h, by simpa using List.find?_some h⟩

/-- Splits a list at the unique element carrying a given key. -/
theorem decomp_of_key {α κ : Type} [DecidableEq κ] {l : List α} {key : α → κ} {k : κ}
    (hmem : ∃ a ∈ l, key a = k) (hnd : (l.map key).Nodup) :
    ∃ l1 a l2, l = l1 ++ a :: l2 ∧ key a = k ∧
      (∀ x ∈ l1, key x ≠ k) ∧ (∀ x ∈ l2, key x ≠ k) := by
  induction l with
  | nil => simp at hmem
  | cons x xs ih =>
    rw [List.map_cons, List.nodup_cons] at hnd
    by_cases hx : key x = k
    · refine ⟨[], x, xs, rfl, hx, by simp, ?_⟩
      intro y hy hyk
      exact hnd.1 (by rw [hx, ← hyk]; exact List.mem_map_of_mem key hy)
    · obtain ⟨a, ha, hak⟩ := hmem
      rcases List.mem_cons.mp ha with rfl | ha'
      · exact absurd hak hx
      · obtain ⟨l1, b, l2, heq, hbk, h1, h2⟩ := ih ⟨a, ha', hak⟩ hnd.2
        refine ⟨x :: l1, b, l2, by rw [heq]; rfl, hbk, ?_, h2⟩
        intro y hy
        rcases List.mem_cons.mp hy with rfl | hy'
        · exact hx
        · exact h1 y hy'

/-- A keyed pointwise update is the identity on a list with no matching key. -/
theorem map_keyed_id {α : Type} (l : List α) (q : α → Bool) (f : α → α)
    (h : ∀ x ∈ l, q x = false) : l.map (fun a => if q a then f a else a) = l := by
  rw [List.map_congr_left (g := id) (fun a ha => by simp [h a ha]), List.map_id]

/-- Removing the rows with a key removes nothing from a list without it. -/
theorem filter_keyed_id {α : Type} (l : List α) (q : α → Bool)
    (h : ∀ x ∈ l, q x = false) : l.filter (fun a => !(q a)) = l :=
  List.filter_eq_self.mpr (fun a ha => by simp [h a ha])

theorem length_filter_append_cons {α : Type} (p : α → Bool) (l1 l2 : List α) (m : α) :
    ((l1 ++ m :: l2).filter p).length =
      (l1.filter p).length + (if p m then 1 else 0) + (l2.filter p).length := by
  rw [List.filter_append, List.filter_cons, List.length_append]
  split
  · rw [List.length_cons]
    omega
  · simp

/-- Either `delete_group` fails and leaves the state unchanged, or it clears
the pointers of the group's users and removes the group with its cascaded
rows. -/
theorem delete_group_state (db : DB) (gid : Nat) :
    (delete_group db gid).2 = db ∨
    (delete_group db gid).2 = { db with
      users := db.users.map (fun u =>
        if u.current_group_id == some gid then
          { u with current_group_id := none, is_group_owner := false }
        else u),
      groups := db.groups.filter (fun g => !(g.group_id == gid)),
      members := db.members.filter (fun m => !(m.group_id == gid)),
      messages := db.messages.filter (fun m => !(m.group_id == gid)),
      itinerary := db.itinerary.filter (fun t => !(t.group_id == gid)) } := by
  unfold delete_group
  split
  · exact Or.inr rfl
  · exact Or.inl rfl

/-- Either `leave_group` changes nothing, or the user exists with a pointer
and no owner flag and the membership row is removed, the pointer cleared and
the count decremented. -/
theorem leave_group_state (db : DB) (uid : Nat) :
    (leave_group db uid).2 = db ∨
    ∃ u gid, findUser db.users uid = some u ∧ u.current_group_id = some gid ∧
      u.is_group_owner = false ∧
      (leave_group db uid).2 = { db with
        members := db.members.filter (fun m =>
          !(m.group_id == gid && m.user_id == uid)),
        users := db.users.map (fun v =>
          if v.userid == uid then { v with current_group_id := none } else v),
        groups := db.groups.map (fun h =>
          if h.group_id == gid then { h with member_count := h.member_count - 1 }
          else h) } := by
  cases hfu : findUser db.users uid with
  | none => exact Or.inl (by simp [leave_group, hfu])
  | some u =>
    cases hc : u.current_group_id with
    | none => exact Or.inl (by simp [leave_group, hfu, hc])
    | some gid =>
      by_cases how : u.is_group_owner = true
      · exact Or.inl (by simp [leave_group, hfu, hc, how])
      · have hof : u.is_group_owner = false := by simpa using how
        refine Or.inr ⟨u, gid, rfl, hc, hof, ?_⟩
        cases hfg : findGroup db.groups gid with
        | some g => simp [leave_group, hfu, hc, hof, hfg]
        | none => simp [leave_group, hfu, hc, hof, hfg]

/-- Either `join_group` changes nothing, or the user was eligible, the group
existed below capacity, no membership row existed, and the state receives the
Public (approved + pointer + count) or Private (pending row only) update. -/
theorem join_group_state (db : DB) (uid gid : Nat) :
    (join_group db uid gid).2 = db ∨
    ∃ u g, findUser db.users uid = some u ∧ u.current_group_id = none ∧
      u.is_group_owner = false ∧ findGroup db.groups gid = some g ∧
      g.member_count < g.max_members ∧
      (∀ m ∈ db.members, ¬(m.group_id = gid ∧ m.user_id = uid)) ∧
      ((g.group_type = GroupType.Public ∧
        (join_group db uid gid).2 = { db with
          users := db.users.map (fun v =>
            if v.userid == uid then { v with current_group_id := some gid } else v),
          groups := db.groups.map (fun h =>
            if h.group_id == gid then { h with member_count := h.member_count + 1 }
            else h),
          members := db.members ++
            [{ member_id := db.next_id, group_id := gid, user_id := uid,
               username := u.username, join_status := JoinStatus.Approved,
               role := Role.Member }],
          next_id := db.next_id + 1 }) ∨
       (g.group_type = GroupType.Private ∧
        (join_group db uid gid).2 = { db with
          members := db.members ++
            [{ member_id := db.next_id, group_id := gid, user_id := uid,
               username := u.username, join_status := JoinStatus.Pending,
               role := Role.Member }],
          next_id := db.next_id + 1 })) := by
  cases hfu : findUser db.users uid with
  | none => exact Or.inl (by simp [join_group, hfu])
  | some u =>
    by_cases hc : u.current_group_id.isSome = true
    · exact Or.inl (by simp [join_group, hfu, hc])
    · have hcn : u.current_group_id = none := by
        cases hx : u.current_group_id with
        | none => rfl
        | some y => rw [hx] at hc; simp at hc
      by_cases how : u.is_group_owner = true
      · exact Or.inl (by simp [join_group, hfu, hc, how])
      · have hof : u.is_group_owner = false := by simpa using how
        cases hfg : findGroup db.groups gid with
        | none => exact Or.inl (by simp [join_group, hfu, hc, how, hfg])
        | some g =>
          by_cases hcap : g.max_members ≤ g.member_count
          · exact Or.inl (by simp [join_group, hfu, hc, how, hfg, hcap])
          · by_cases hany : (db.members.any fun m =>
                m.group_id == gid && m.user_id == uid) = true
            · exact Or.inl (by simp [join_group, hfu, hc, how, hfg, hcap, hany])
            · have hanyf : (db.members.any fun m =>
                  m.group_id == gid && m.user_id == uid) = false := by
                simpa using hany
              refine Or.inr ⟨u, g, rfl, hcn, hof, rfl, not_le.mp hcap, ?_, ?_⟩
              · intro m hm
                have := List.any_eq_false.mp hanyf m hm
                simp only [Bool.and_eq_true, beq_iff_eq] at this
                tauto
              · cases hgt : g.group_type with
                | Public =>
                  exact Or.inl ⟨rfl,
                    by simp [join_group, hfu, hc, how, hfg, hcap, hany, hgt]⟩
                | Private =>
                  exact Or.inr ⟨rfl,
                    by simp [join_group, hfu, hc, how, hfg, hcap, hany, hgt]⟩

/-- Either `update_member_status` changes nothing, or the group exists with
the caller as owner, a membership row exists, and the state receives the
status update together with: the pointer/increment bookkeeping (`Approved`),
the pointer-clear/decrement bookkeeping (`Rejected`/`Blocked` with the
member's pointer at this group), or no bookkeeping at all (`Pending`, or
`Rejected`/`Blocked` with the pointer elsewhere). -/
theorem update_member_status_state (db : DB) (gid o mu : Nat) (ns : JoinStatus) :
    (update_member_status db gid o mu ns).2 = db ∨
    ((∃ g, findGroup db.groups gid = some g ∧ g.owner_id = o) ∧
     (∃ m ∈ db.members, m.group_id = gid ∧ m.user_id = mu) ∧
     ((ns = JoinStatus.Approved ∧
        (update_member_status db gid o mu ns).2 = { db with
          members := db.members.map (fun m =>
            if m.group_id == gid && m.user_id == mu then
              { m with join_status := ns } else m),
          users := db.users.map (fun v =>
            if v.userid == mu then { v with current_group_id := some gid } else v),
          groups := db.groups.map (fun h =>
            if h.group_id == gid then { h with member_count := h.member_count + 1 }
            else h) }) ∨
      ((ns = JoinStatus.Rejected ∨ ns = JoinStatus.Blocked) ∧
        (∃ v, findUser db.users mu = some v ∧ v.current_group_id = some gid) ∧
        (update_member_status db gid o mu ns).2 = { db with
          members := db.members.map (fun m =>
            if m.group_id == gid && m.user_id == mu then
              { m with join_status := ns } else m),
          users := db.users.map (fun w =>
            if w.userid == mu then { w with current_group_id := none } else w),
          groups := db.groups.map (fun h =>
            if h.group_id == gid then { h with member_count := h.member_count - 1 }
            else h) }) ∨
      ((ns = JoinStatus.Pending ∨
        ((ns = JoinStatus.Rejected ∨ ns = JoinStatus.Blocked) ∧
          (∀ v, findUser db.users mu = some v → v.current_group_id ≠ some gid))) ∧
        (update_member_status db gid o mu ns).2 = { db with
          members := db.members.map (fun m =>
            if m.group_id == gid && m.user_id == mu then
              { m with join_status := ns } else m) }))) := by
  cases hfg : findGroup db.groups gid with
  | none => exact Or.inl (by simp [update_member_status, hfg])
  | some g =>
    by_cases ho : g.owner_id = o
    · by_cases hany : (db.members.any fun m =>
          m.group_id == gid && m.user_id == mu) = true
      · have hex : ∃ m ∈ db.members, m.group_id = gid ∧ m.user_id = mu := by
          obtain ⟨m, hm, hp⟩ := List.any_eq_true.mp hany
          simp only [Bool.and_eq_true, beq_iff_eq] at hp
          exact ⟨m, hm, hp.1, hp.2⟩
        refine Or.inr ⟨⟨g, rfl, ho⟩, hex, ?_⟩
        cases ns with
        | Approved =>
          exact Or.inl ⟨rfl, by simp [update_member_status, hfg, ho, hany]⟩
        | Pending =>
          exact Or.inr (Or.inr ⟨Or.inl rfl,
            by simp [update_member_status, hfg, ho, hany]⟩)
        | Rejected =>
          cases hv : findUser db.users mu with
          | none =>
            refine Or.inr (Or.inr ⟨Or.inr ⟨Or.inl rfl, ?_⟩,
              by simp [update_member_status, hfg, ho, hany, hv]⟩)
            intro v hv'
            exact Option.noConfusion hv'
          | some v =>
            by_cases hcur : v.current_group_id = some gid
            · exact Or.inr (Or.inl ⟨Or.inl rfl, ⟨v, rfl, hcur⟩,
                by simp [update_member_status, hfg, ho, hany, hv, hcur]⟩)
            · refine Or.inr (Or.inr ⟨Or.inr ⟨Or.inl rfl, ?_⟩,
                by simp [update_member_status, hfg, ho, hany, hv, hcur]⟩)
              intro w hw
              cases hw
              exact hcur
        | Blocked =>
          cases hv : findUser db.users mu with
          | none =>
            refine Or.inr (Or.inr ⟨Or.inr ⟨Or.inr rfl, ?_⟩,
              by simp [update_member_status, hfg, ho, hany, hv]⟩)
            intro v hv'
            exact Option.noConfusion hv'
          | some v =>
            by_cases hcur : v.current_group_id = some gid
            · exact Or.inr (Or.inl ⟨Or.inr rfl, ⟨v, rfl, hcur⟩,
                by simp [update_member_status, hfg, ho, hany, hv, hcur]⟩)
            · refine Or.inr (Or.inr ⟨Or.inr ⟨Or.inr rfl, ?_⟩,
                by simp [update_member_status, hfg, ho, hany, hv, hcur]⟩)
              intro w hw
              cases hw
              exact hcur
      · exact Or.inl (by
          have hf : (db.members.any fun m =>
              m.group_id == gid && m.user_id == mu) = false := by simpa using hany
          simp [update_member_status, hfg, ho, hf])
    · exact Or.inl (by simp [update_member_status, hfg, ho])

/-- Either `create_group_with_itinerary` changes nothing, or the owner was
eligible and the state receives the new group (with the default count 1), its
itinerary, the Owner-role approved membership row, and the owner's
pointer/flag update. -/
theorem create_group_state (db : DB) (o : Nat) (gn : String) (t : GroupType)
    (ds : List Nat) (d : Option String) (mm : Int) :
    (create_group_with_itinerary db o gn t ds d mm).2 = db ∨
    ∃ u, findUser db.users o = some u ∧ u.current_group_id = none ∧
      u.is_group_owner = false ∧
      (create_group_with_itinerary db o gn t ds d mm).2 = { db with
        groups := db.groups ++
          [{ group_id := db.next_id, group_name := gn, group_description := d,
             group_type := t, owner_id := o, member_count := 1,
             max_members := mm }],
        itinerary := db.itinerary ++ ds.mapIdx (fun i dd =>
          { itinerary_id := db.next_id + 1 + i, group_id := db.next_id,
            destination_id := dd, visit_order := i + 1 }),
        members := db.members ++
          [{ member_id := db.next_id + 1 + ds.length, group_id := db.next_id,
             user_id := o, username := u.username,
             join_status := JoinStatus.Approved, role := Role.Owner }],
        users := db.users.map (fun v =>
          if v.userid == o then
            { v with current_group_id := some db.next_id, is_group_owner := true }
          else v),
        next_id := db.next_id + 2 + ds.length } := by
  cases hfu : findUser db.users o with
  | none => exact Or.inl (by simp [create_group_with_itinerary, hfu])
  | some u =>
    by_cases hc : u.current_group_id.isSome = true
    · exact Or.inl (by simp [create_group_with_itinerary, hfu, hc])
    · have hcn : u.current_group_id = none := by
        cases hx : u.current_group_id with
        | none => rfl
        | some y => rw [hx] at hc; simp at hc
      by_cases how : u.is_group_owner = true
      · exact Or.inl (by simp [create_group_with_itinerary, hfu, hc, how])
      · have hof : u.is_group_owner = false := by simpa using how
        by_cases hall : (ds.all fun dd => db.destinations.contains dd) = true
        · have hnotex : ¬∃ x ∈ ds, x ∉ db.destinations := by
            intro hex
            obtain ⟨x, hx, hnx⟩ := hex
            exact hnx (by simpa using List.all_eq_true.mp hall x hx)
          by_cases hnd : ds.Nodup
          · exact Or.inr ⟨u, rfl, hcn, hof,
              by simp [create_group_with_itinerary, hfu, hc, how, hall, hnotex, hnd]⟩
          · exact Or.inl
              (by simp [create_group_with_itinerary, hfu, hc, how, hall, hnotex, hnd])
        · exact Or.inl (by
            have hex : ∃ x ∈ ds, x ∉ db.destinations := by
              simpa using hall
            simp [create_group_with_itinerary, hfu, hc, how, hex])

theorem approvedCountL_append (l1 l2 : List MemberRow) (gid : Nat) :
    approvedCountL (l1 ++ l2) gid = approvedCountL l1 gid + approvedCountL l2 gid := by
  simp [approvedCountL, List.filter_append]

theorem approvedCountL_append_cons (l1 l2 : List MemberRow) (x : MemberRow) (g' : Nat) :
    approvedCountL (l1 ++ x :: l2) g' =
      approvedCountL l1 g' +
        (if x.group_id == g' && x.join_status == JoinStatus.Approved then 1 else 0) +
      approvedCountL l2 g' :=
  length_filter_append_cons _ l1 l2 x

theorem approvedCountL_singleton (m : MemberRow) (gid : Nat) :
    approvedCountL [m] gid =
      if m.group_id == gid && m.join_status == JoinStatus.Approved then 1 else 0 := by
  unfold approvedCountL
  rw [List.filter_cons]
  by_cases h : (m.group_id == gid && m.join_status == JoinStatus.Approved) = true
  · rw [if_pos h, if_pos h]
    rfl
  · rw [if_neg h, if_neg h]
    rfl

theorem approvedCountL_filter_group (l : List MemberRow) (gid g' : Nat) (h : g' ≠ gid) :
    approvedCountL (l.filter (fun m => !(m.group_id == gid))) g' =
      approvedCountL l g' := by
  unfold approvedCountL
  rw [List.filter_filter]
  congr 1
  apply List.filter_congr
  intro m _
  by_cases hm : m.group_id = g'
  · simp [hm, h, Ne.symm h]
  · simp [hm]

theorem map_update_decomp (l1 l2 : List MemberRow) (m0 : MemberRow) (gid mu : Nat)
    (f : MemberRow → MemberRow)
    (h0 : m0.group_id = gid ∧ m0.user_id = mu)
    (h1 : ∀ x ∈ l1, ¬(x.group_id = gid ∧ x.user_id = mu))
    (h2 : ∀ x ∈ l2, ¬(x.group_id = gid ∧ x.user_id = mu)) :
    (l1 ++ m0 :: l2).map (fun m =>
        if m.group_id == gid && m.user_id == mu then f m else m) =
      l1 ++ f m0 :: l2 := by
  rw [List.map_append, List.map_cons]
  rw [map_keyed_id l1 _ f (fun x hx => by
    have := h1 x hx
    rw [Bool.eq_false_iff]
    intro hq
    simp only [Bool.and_eq_true, beq_iff_eq] at hq
    exact this hq)]
  rw [map_keyed_id l2 _ f (fun x hx => by
    have := h2 x hx
    rw [Bool.eq_false_iff]
    intro hq
    simp only [Bool.and_eq_true, beq_iff_eq] at hq
    exact this hq)]
  rw [if_pos (by simp [h0.1, h0.2])]

theorem filter_remove_decomp (l1 l2 : List MemberRow) (m0 : MemberRow) (gid uid : Nat)
    (h0 : m0.group_id = gid ∧ m0.user_id = uid)
    (h1 : ∀ x ∈ l1, ¬(x.group_id = gid ∧ x.user_id = uid))
    (h2 : ∀ x ∈ l2, ¬(x.group_id = gid ∧ x.user_id = uid)) :
    (l1 ++ m0 :: l2).filter (fun m =>
        !(m.group_id == gid && m.user_id == uid)) = l1 ++ l2 := by
  rw [List.filter_append, List.filter_cons]
  rw [filter_keyed_id l1 _ (fun x hx => by
    have := h1 x hx
    rw [Bool.eq_false_iff]
    intro hq
    simp only [Bool.and_eq_true, beq_iff_eq] at hq
    exact this hq)]
  rw [filter_keyed_id l2 _ (fun x hx => by
    have := h2 x hx
    rw [Bool.eq_false_iff]
    intro hq
    simp only [Bool.and_eq_true, beq_iff_eq] at hq
    exact this hq)]
  rw [if_neg (by simp [h0.1, h0.2])]

/-- Splits the members table at the unique row of a `(group, user)` pair. -/
theorem members_decomp {db : DB} {gid mu : Nat}
    (hwf : (db.members.map (fun m => (m.group_id, m.user_id))).Nodup)
    (hex : ∃ m ∈ db.members, m.group_id = gid ∧ m.user_id = mu) :
    ∃ l1 m0 l2, db.members = l1 ++ m0 :: l2 ∧ m0.group_id = gid ∧ m0.user_id = mu ∧
      (∀ x ∈ l1, ¬(x.group_id = gid ∧ x.user_id = mu)) ∧
      (∀ x ∈ l2, ¬(x.group_id = gid ∧ x.user_id = mu)) := by
  obtain ⟨m, hm, hg, hu⟩ := hex
  obtain ⟨l1, m0, l2, heq, hk, h1, h2⟩ := decomp_of_key (k := (gid, mu))
    ⟨m, hm, by show (m.group_id, m.user_id) = (gid, mu); rw [hg, hu]⟩ hwf
  rw [Prod.mk.injEq] at hk
  refine ⟨l1, m0, l2, heq, hk.1, hk.2, ?_, ?_⟩
  · intro x hx ⟨ha, hb⟩
    exact h1 x hx (by rw [ha, hb])
  · intro x hx ⟨ha, hb⟩
    exact h2 x hx (by rw [ha, hb])

theorem map_key_keyed_update {α κ : Type} (l : List α) (key : α → κ) (q : α → Bool)
    (f : α → α) (hf : ∀ a, key (f a) = key a) :
    (l.map (fun a => if q a then f a else a)).map key = l.map key := by
  rw [List.map_map]
  refine List.map_congr_left (fun a _ => ?_)
  by_cases hq : q a = true
  · simp [hq, hf]
  · simp [hq]

theorem findUser_of_mem {l : List UserRow} {uid : Nat} {u : UserRow}
    (hnd : (l.map (fun v => v.userid)).Nodup) (hu : u ∈ l) (hid : u.userid = uid) :
    findUser l uid = some u := by
  cases h : findUser l uid with
  | none =>
    have := List.find?_eq_none.mp h u hu
    simp [hid] at this
  | some w =>
    obtain ⟨hw, hwid⟩ := findUser_eq_some h
    rw [List.inj_on_of_nodup_map hnd hw hu (by rw [hwid, hid])]

theorem approvedCountL_eq_zero {l : List MemberRow} {gid : Nat}
    (h : ∀ m ∈ l, m.group_id ≠ gid) : approvedCountL l gid = 0 := by
  unfold approvedCountL
  rw [List.length_eq_zero, List.filter_eq_nil_iff]
  intro m hm
  simp [h m hm]

/-- `delete_group` preserves the combined invariant. -/
theorem delete_group_preserves (db : DB) (gid : Nat) (h : DBInv db) :
    DBInv (delete_group db gid).2 := by
  obtain ⟨⟨wg, wu, wp, fkg, fku, fkc, frg, frm⟩, hcnt, hlink⟩ := h
  rcases delete_group_state db gid with hs | hs
  · rw [hs]
    exact ⟨⟨wg, wu, wp, fkg, fku, fkc, frg, frm⟩, hcnt, hlink⟩
  · rw [hs]
    refine ⟨⟨?_, ?_, ?_, ?_, ?_, ?_, ?_, ?_⟩, ?_, ?_⟩
    · exact (wg.sublist (List.Sublist.map _ (List.filter_sublist _)))
    · rw [map_key_keyed_update db.users (fun u => u.userid)
        (fun u => u.current_group_id == some gid)
        (fun u => { u with current_group_id := none, is_group_owner := false })
        (fun a => rfl)]
      exact wu
    · exact (wp.sublist (List.Sublist.map _ (List.filter_sublist _)))
    · intro m hm
      rw [List.mem_filter] at hm
      obtain ⟨g0, hg0, hid⟩ := fkg m hm.1
      refine ⟨g0, ?_, hid⟩
      rw [List.mem_filter]
      refine ⟨hg0, ?_⟩
      have : m.group_id ≠ gid := by simpa using hm.2
      simp [hid, this]
    · intro m hm
      rw [List.mem_filter] at hm
      obtain ⟨u0, hu0, hid⟩ := fku m hm.1
      by_cases hq : (u0.current_group_id == some gid) = true
      · exact ⟨_, List.mem_map_of_mem _ hu0, by simp [hq, hid]⟩
      · exact ⟨_, List.mem_map_of_mem _ hu0, by simp [hq, hid]⟩
    · intro u' hu' gid' hcur
      obtain ⟨u0, hu0, rfl⟩ := List.mem_map.mp hu'
      by_cases hq : (u0.current_group_id == some gid) = true
      · rw [if_pos hq] at hcur
        cases hcur
      · rw [if_neg hq] at hcur
        obtain ⟨g0, hg0, hid⟩ := fkc u0 hu0 gid' hcur
        refine ⟨g0, ?_, hid⟩
        rw [List.mem_filter]
        refine ⟨hg0, ?_⟩
        have hne : gid' ≠ gid := by
          intro hgg
          rw [hgg] at hcur
          exact hq (by simp [hcur])
        simp [hid, hne]
    · intro g hg
      rw [List.mem_filter] at hg
      exact frg g hg.1
    · intro m hm
      rw [List.mem_filter] at hm
      exact frm m hm.1
    · intro g' hg'
      rw [List.mem_filter] at hg'
      have hne : g'.group_id ≠ gid := by simpa using hg'.2
      show g'.member_count = (approvedCountL _ g'.group_id : Int)
      rw [approvedCountL_filter_group _ _ _ hne]
      exact hcnt g' hg'.1
    · intro u' hu'
      obtain ⟨u0, hu0, rfl⟩ := List.mem_map.mp hu'
      by_cases hq : (u0.current_group_id == some gid) = true
      · rw [if_pos hq]
        constructor
        · intro m' hm' hmu hma
          rw [List.mem_filter] at hm'
          have := (hlink u0 hu0).1 m' hm'.1 (by simpa using hmu) hma
          rw [show u0.current_group_id = some gid by simpa using hq] at this
          have : m'.group_id = gid := by
            injection this.symm
          simp [this] at hm'
        · intro gid' hgid'
          cases hgid'
      · rw [if_neg hq]
        constructor
        · intro m' hm' hmu hma
          rw [List.mem_filter] at hm'
          exact (hlink u0 hu0).1 m' hm'.1 hmu hma
        · intro gid' hgid'
          obtain ⟨m', hm', hmg, hmu, hma⟩ := (hlink u0 hu0).2 gid' hgid'
          refine ⟨m', ?_, hmg, hmu, hma⟩
          rw [List.mem_filter]
          refine ⟨hm', ?_⟩
          have hne : gid' ≠ gid := by
            intro hgg
            rw [hgg] at hgid'
            exact hq (by simp [hgid'])
          simp [hmg, hne]

theorem exists_key_in_map_update {α κ : Type} (l : List α) (q : α → Bool) (f : α → α)
    (key : α → κ) (hf : ∀ a, key (f a) = key a) {k : κ}
    (h : ∃ a ∈ l, key a = k) :
    ∃ b ∈ l.map (fun a => if q a then f a else a), key b = k := by
  obtain ⟨a, ha, hak⟩ := h
  refine ⟨_, List.mem_map_of_mem _ ha, ?_⟩
  by_cases hq : q a = true
  · simp only [hq, if_true]
    rw [hf, hak]
  · simp only [hq, if_false]
    exact hak

/-- `join_group` preserves the combined invariant. -/
theorem join_group_preserves (db : DB) (uid gid : Nat) (h : DBInv db) :
    DBInv (join_group db uid gid).2 := by
  obtain ⟨⟨wg, wu, wp, fkg, fku, fkc, frg, frm⟩, hcnt, hlink⟩ := h
  rcases join_group_state db uid gid with hs |
    ⟨u, g, hu, hcn, hof, hg, hcap, hrow, hcase⟩
  · rw [hs]
    exact ⟨⟨wg, wu, wp, fkg, fku, fkc, frg, frm⟩, hcnt, hlink⟩
  obtain ⟨hum, huid⟩ := findUser_eq_some hu
  obtain ⟨hgm, hgid⟩ := findGroup_eq_some hg
  have hdisj : ∀ p ∈ db.members.map (fun m => (m.group_id, m.user_id)),
      p ∈ [((gid : Nat), (uid : Nat))] → False := by
    intro p hp hps
    rw [List.mem_singleton] at hps
    obtain ⟨m, hm, rfl⟩ := List.mem_map.mp hp
    rw [Prod.mk.injEq] at hps
    exact hrow m hm ⟨hps.1, hps.2⟩
  rcases hcase with ⟨hpub, hs⟩ | ⟨hpriv, hs⟩
  · rw [hs]
    refine ⟨⟨?_, ?_, ?_, ?_, ?_, ?_, ?_, ?_⟩, ?_, ?_⟩
    · rw [map_key_keyed_update db.groups (fun g => g.group_id)
        (fun h => h.group_id == gid)
        (fun h => { h with member_count := h.member_count + 1 }) (fun a => rfl)]
      exact wg
    · rw [map_key_keyed_update db.users (fun u => u.userid)
        (fun v => v.userid == uid)
        (fun v => { v with current_group_id := some gid }) (fun a => rfl)]
      exact wu
    · rw [List.map_append]
      exact List.Nodup.append wp (by simp) hdisj
    · intro m hm
      rcases List.mem_append.mp hm with hm' | hm'
      · obtain ⟨g0, hg0, hid⟩ := fkg m hm'
        exact exists_key_in_map_update db.groups (fun h => h.group_id == gid)
          (fun h => { h with member_count := h.member_count + 1 })
          (fun h => h.group_id) (fun a => rfl) ⟨g0, hg0, hid⟩
      · rw [List.mem_singleton] at hm'
        subst hm'
        exact exists_key_in_map_update db.groups (fun h => h.group_id == gid)
          (fun h => { h with member_count := h.member_count + 1 })
          (fun h => h.group_id) (fun a => rfl) ⟨g, hgm, hgid⟩
    · intro m hm
      rcases List.mem_append.mp hm with hm' | hm'
      · obtain ⟨u0, hu0, hid⟩ := fku m hm'
        exact exists_key_in_map_update db.users (fun v => v.userid == uid)
          (fun v => { v with current_group_id := some gid })
          (fun v => v.userid) (fun a => rfl) ⟨u0, hu0, hid⟩
      · rw [List.mem_singleton] at hm'
        subst hm'
        exact exists_key_in_map_update db.users (fun v => v.userid == uid)
          (fun v => { v with current_group_id := some gid })
          (fun v => v.userid) (fun a => rfl) ⟨u, hum, huid⟩
    · intro u' hu' gid' hcur
      obtain ⟨u0, hu0, rfl⟩ := List.mem_map.mp hu'
      by_cases hq : (u0.userid == uid) = true
      · rw [if_pos hq] at hcur
        have hgg : gid' = gid := by injection hcur.symm
        rw [hgg]
        exact exists_key_in_map_update db.groups (fun h => h.group_id == gid)
          (fun h => { h with member_count := h.member_count + 1 })
          (fun h => h.group_id) (fun a => rfl) ⟨g, hgm, hgid⟩
      · rw [if_neg hq] at hcur
        obtain ⟨g0, hg0, hid⟩ := fkc u0 hu0 gid' hcur
        exact exists_key_in_map_update db.groups (fun h => h.group_id == gid)
          (fun h => { h with member_count := h.member_count + 1 })
          (fun h => h.group_id) (fun a => rfl) ⟨g0, hg0, hid⟩
    · intro g' hg'
      obtain ⟨g0, hg0, rfl⟩ := List.mem_map.mp hg'
      have : g0.group_id < db.next_id := frg g0 hg0
      by_cases hq : (g0.group_id == gid) = true
      · rw [if_pos hq]
        exact Nat.lt_succ_of_lt this
      · rw [if_neg hq]
        exact Nat.lt_succ_of_lt this
    · intro m hm
      rcases List.mem_append.mp hm with hm' | hm'
      · exact Nat.lt_succ_of_lt (frm m hm')
      · rw [List.mem_singleton] at hm'
        subst hm'
        exact Nat.lt_succ_self _
    · intro g' hg'
      obtain ⟨g0, hg0, rfl⟩ := List.mem_map.mp hg'
      by_cases hq : (g0.group_id == gid) = true
      · have hg0id : g0.group_id = gid := by simpa using hq
        have hg0g : g0 = g := List.inj_on_of_nodup_map wg hg0 hgm
          (by show g0.group_id = g.group_id; rw [hg0id, hgid])
        rw [if_pos hq]
        show _ = (approvedCountL _ _ : Int)
        rw [approvedCountL_append, approvedCountL_singleton]
        rw [if_pos (by simp [hg0id])]
        have := hcnt g0 hg0
        rw [show approvedCount db g0.group_id = approvedCountL db.members g0.group_id
          from rfl] at this
        push_cast
        omega
      · rw [if_neg hq]
        have hne : g0.group_id ≠ gid := by simpa using hq
        show _ = (approvedCountL _ _ : Int)
        rw [approvedCountL_append, approvedCountL_singleton]
        rw [if_neg (by simp [Ne.symm hne])]
        have := hcnt g0 hg0
        rw [show approvedCount db g0.group_id = approvedCountL db.members g0.group_id
          from rfl] at this
        omega
    · intro u' hu'
      obtain ⟨u0, hu0, rfl⟩ := List.mem_map.mp hu'
      by_cases hq : (u0.userid == uid) = true
      · have hu0id : u0.userid = uid := by simpa using hq
        have hu0u : u0 = u := List.inj_on_of_nodup_map wu hu0 hum
          (by show u0.userid = u.userid; rw [hu0id, huid])
        subst hu0u
        rw [if_pos hq]
        constructor
        · intro m' hm' hmu hma
          rcases List.mem_append.mp hm' with hm' | hm'
          · have := (hlink u0 hu0).1 m' hm' hmu hma
            rw [hcn] at this
            cases this
          · rw [List.mem_singleton] at hm'
            subst hm'
            rfl
        · intro gid' hgid'
          have : gid' = gid := by injection hgid'.symm
          subst this
          exact ⟨_, List.mem_append_right _ (List.mem_singleton_self _), rfl,
            huid.symm, rfl⟩
      · rw [if_neg hq]
        constructor
        · intro m' hm' hmu hma
          rcases List.mem_append.mp hm' with hm' | hm'
          · exact (hlink u0 hu0).1 m' hm' hmu hma
          · rw [List.mem_singleton] at hm'
            subst hm'
            exact absurd (show u0.userid = uid from hmu.symm)
              (fun hh => hq (by simp [hh]))
        · intro gid' hgid'
          obtain ⟨m', hm', hma, hmb, hmc⟩ := (hlink u0 hu0).2 gid' hgid'
          exact ⟨m', List.mem_append_left _ hm', hma, hmb, hmc⟩
  · rw [hs]
    refine ⟨⟨wg, wu, ?_, ?_, ?_, fkc, ?_, ?_⟩, ?_, ?_⟩
    · rw [List.map_append]
      exact List.Nodup.append wp (by simp) hdisj
    · intro m hm
      rcases List.mem_append.mp hm with hm' | hm'
      · exact fkg m hm'
      · rw [List.mem_singleton] at hm'
        subst hm'
        exact ⟨g, hgm, hgid⟩
    · intro m hm
      rcases List.mem_append.mp hm with hm' | hm'
      · exact fku m hm'
      · rw [List.mem_singleton] at hm'
        subst hm'
        exact ⟨u, hum, huid⟩
    · intro g' hg'
      exact Nat.lt_succ_of_lt (frg g' hg')
    · intro m hm
      rcases List.mem_append.mp hm with hm' | hm'
      · exact Nat.lt_succ_of_lt (frm m hm')
      · rw [List.mem_singleton] at hm'
        subst hm'
        exact Nat.lt_succ_self _
    · intro g' hg'
      show _ = (approvedCountL _ _ : Int)
      rw [approvedCountL_append, approvedCountL_singleton]
      rw [if_neg (by simp)]
      have := hcnt g' hg'
      rw [show approvedCount db g'.group_id = approvedCountL db.members g'.group_id
        from rfl] at this
      omega
    · intro u' hu'
      constructor
      · intro m' hm' hmu hma
        rcases List.mem_append.mp hm' with hm'' | hm''
        · exact (hlink u' hu').1 m' hm'' hmu hma
        · rw [List.mem_singleton] at hm''
          subst hm''
          cases hma
      · intro gid' hgid'
        obtain ⟨m', hm', hma, hmb, hmc⟩ := (hlink u' hu').2 gid' hgid'
        exact ⟨m', List.mem_append_left _ hm', hma, hmb, hmc⟩

/-- `leave_group` preserves the combined invariant. -/
theorem leave_group_preserves (db : DB) (uid : Nat) (h : DBInv db) :
    DBInv (leave_group db uid).2 := by
  obtain ⟨⟨wg, wu, wp, fkg, fku, fkc, frg, frm⟩, hcnt, hlink⟩ := h
  rcases leave_group_state db uid with hs | ⟨u, gid, hu, hcur, hof, hs⟩
  · rw [hs]
    exact ⟨⟨wg, wu, wp, fkg, fku, fkc, frg, frm⟩, hcnt, hlink⟩
  obtain ⟨hum, huid⟩ := findUser_eq_some hu
  obtain ⟨r, hr, hrg, hru, hra⟩ := (hlink u hum).2 gid hcur
  have hex : ∃ m ∈ db.members, m.group_id = gid ∧ m.user_id = uid :=
    ⟨r, hr, hrg, by rw [hru, huid]⟩
  obtain ⟨l1, m0, l2, heq, h0g, h0u, hoff1, hoff2⟩ := members_decomp wp hex
  have hm0mem : m0 ∈ db.members := by
    rw [heq]
    exact List.mem_append_right _ (List.mem_cons_self _ _)
  have hrm0 : r = m0 := List.inj_on_of_nodup_map wp hr hm0mem
    (by show (r.group_id, r.user_id) = (m0.group_id, m0.user_id)
        rw [hrg, h0g, hru, huid, h0u])
  have h0a : m0.join_status = JoinStatus.Approved := by rw [← hrm0]; exact hra
  have hfilter : db.members.filter (fun m =>
      !(m.group_id == gid && m.user_id == uid)) = l1 ++ l2 := by
    rw [heq]
    exact filter_remove_decomp l1 l2 m0 gid uid ⟨h0g, h0u⟩ hoff1 hoff2
  rw [hs]
  refine ⟨⟨?_, ?_, ?_, ?_, ?_, ?_, ?_, ?_⟩, ?_, ?_⟩
  · rw [map_key_keyed_update db.groups (fun g => g.group_id)
      (fun h => h.group_id == gid)
      (fun h => { h with member_count := h.member_count - 1 }) (fun a => rfl)]
    exact wg
  · rw [map_key_keyed_update db.users (fun u => u.userid)
      (fun v => v.userid == uid)
      (fun v => { v with current_group_id := none }) (fun a => rfl)]
    exact wu
  · exact wp.sublist (List.Sublist.map _ (List.filter_sublist _))
  · intro m hm
    rw [List.mem_filter] at hm
    obtain ⟨g0, hg0, hid⟩ := fkg m hm.1
    exact exists_key_in_map_update db.groups (fun h => h.group_id == gid)
      (fun h => { h with member_count := h.member_count - 1 })
      (fun h => h.group_id) (fun a => rfl) ⟨g0, hg0, hid⟩
  · intro m hm
    rw [List.mem_filter] at hm
    obtain ⟨u0, hu0, hid⟩ := fku m hm.1
    exact exists_key_in_map_update db.users (fun v => v.userid == uid)
      (fun v => { v with current_group_id := none })
      (fun v => v.userid) (fun a => rfl) ⟨u0, hu0, hid⟩
  · intro u' hu' gid' hcur'
    obtain ⟨u0, hu0, rfl⟩ := List.mem_map.mp hu'
    by_cases hq : (u0.userid == uid) = true
    · rw [if_pos hq] at hcur'
      cases hcur'
    · rw [if_neg hq] at hcur'
      obtain ⟨g0, hg0, hid⟩ := fkc u0 hu0 gid' hcur'
      exact exists_key_in_map_update db.groups (fun h => h.group_id == gid)
        (fun h => { h with member_count := h.member_count - 1 })
        (fun h => h.group_id) (fun a => rfl) ⟨g0, hg0, hid⟩
  · intro g' hg'
    obtain ⟨g0, hg0, rfl⟩ := List.mem_map.mp hg'
    by_cases hq : (g0.group_id == gid) = true
    · rw [if_pos hq]
      exact frg g0 hg0
    · rw [if_neg hq]
      exact frg g0 hg0
  · intro m hm
    rw [List.mem_filter] at hm
    exact frm m hm.1
  · intro g' hg'
    obtain ⟨g0, hg0, rfl⟩ := List.mem_map.mp hg'
    have horig := hcnt g0 hg0
    rw [show approvedCount db g0.group_id = approvedCountL db.members g0.group_id
      from rfl, heq, approvedCountL_append_cons] at horig
    by_cases hq : (g0.group_id == gid) = true
    · have hg0id : g0.group_id = gid := by simpa using hq
      rw [if_pos hq]
      show _ = (approvedCountL _ _ : Int)
      rw [hfilter, approvedCountL_append]
      rw [if_pos (by simp [h0g, hg0id, h0a])] at horig
      push_cast at horig ⊢
      omega
    · have hne : g0.group_id ≠ gid := by simpa using hq
      rw [if_neg hq]
      show _ = (approvedCountL _ _ : Int)
      rw [hfilter, approvedCountL_append]
      rw [if_neg (by simp [h0g]; intro hcontra; exact absurd hcontra.symm hne)] at horig
      push_cast at horig ⊢
      omega
  · intro u' hu'
    obtain ⟨u0, hu0, rfl⟩ := List.mem_map.mp hu'
    by_cases hq : (u0.userid == uid) = true
    · have hu0id : u0.userid = uid := by simpa using hq
      have hu0u : u0 = u := List.inj_on_of_nodup_map wu hu0 hum
        (by show u0.userid = u.userid; rw [hu0id, huid])
      subst hu0u
      rw [if_pos hq]
      constructor
      · intro m' hm' hmu hma
        rw [List.mem_filter] at hm'
        have hcg := (hlink u0 hu0).1 m' hm'.1 hmu hma
        rw [hcur] at hcg
        have hmg : m'.group_id = gid := by injection hcg.symm
        have hcond := hm'.2
        rw [Bool.not_eq_true'] at hcond
        rw [Bool.eq_false_iff] at hcond
        exact (hcond (by simp [hmg, hmu, hu0id])).elim
      · intro gid' hgid'
        cases hgid'
    · rw [if_neg hq]
      have hne : u0.userid ≠ uid := fun hh => hq (by simp [hh])
      constructor
      · intro m' hm' hmu hma
        rw [List.mem_filter] at hm'
        exact (hlink u0 hu0).1 m' hm'.1 hmu hma
      · intro gid' hgid'
        obtain ⟨m', hm', hma, hmb, hmc⟩ := (hlink u0 hu0).2 gid' hgid'
        refine ⟨m', ?_, hma, hmb, hmc⟩
        rw [List.mem_filter]
        refine ⟨hm', ?_⟩
        simp only [Bool.and_eq_true, beq_iff_eq, Bool.not_eq_true']
        rw [Bool.eq_false_iff]
        intro hb
        simp only [Bool.and_eq_true, beq_iff_eq] at hb
        exact hne (by rw [← hmb, hb.2])

/-- `create_group_with_itinerary` preserves the combined invariant. -/
theorem create_group_preserves (db : DB) (o : Nat) (gn : String) (t : GroupType)
    (ds : List Nat) (d : Option String) (mm : Int) (h : DBInv db) :
    DBInv (create_group_with_itinerary db o gn t ds d mm).2 := by
  obtain ⟨⟨wg, wu, wp, fkg, fku, fkc, frg, frm⟩, hcnt, hlink⟩ := h
  rcases create_group_state db o gn t ds d mm with hs | ⟨u, hu, hcn, hof, hs⟩
  · rw [hs]
    exact ⟨⟨wg, wu, wp, fkg, fku, fkc, frg, frm⟩, hcnt, hlink⟩
  obtain ⟨hum, huid⟩ := findUser_eq_some hu
  have hgne : ∀ g0 ∈ db.groups, g0.group_id ≠ db.next_id :=
    fun g0 hg0 => Nat.ne_of_lt (frg g0 hg0)
  have hmne : ∀ m ∈ db.members, m.group_id ≠ db.next_id := by
    intro m hm
    obtain ⟨g0, hg0, hid⟩ := fkg m hm
    rw [← hid]
    exact hgne g0 hg0
  rw [hs]
  refine ⟨⟨?_, ?_, ?_, ?_, ?_, ?_, ?_, ?_⟩, ?_, ?_⟩
  · rw [List.map_append]
    refine List.Nodup.append wg (by simp) ?_
    intro p hp hps
    obtain ⟨g0, hg0, rfl⟩ := List.mem_map.mp hp
    obtain ⟨gx, hgx, hgxe⟩ := List.mem_map.mp hps
    rw [List.mem_singleton] at hgx
    subst hgx
    exact hgne g0 hg0 hgxe.symm
  · rw [map_key_keyed_update db.users (fun u => u.userid)
      (fun v => v.userid == o)
      (fun v => { v with current_group_id := some db.next_id,
                         is_group_owner := true }) (fun a => rfl)]
    exact wu
  · rw [List.map_append]
    refine List.Nodup.append wp (by simp) ?_
    intro p hp hps
    obtain ⟨m, hm, rfl⟩ := List.mem_map.mp hp
    obtain ⟨mx, hmx, hmxe⟩ := List.mem_map.mp hps
    rw [List.mem_singleton] at hmx
    subst hmx
    rw [Prod.mk.injEq] at hmxe
    exact hmne m hm hmxe.1.symm
  · intro m hm
    rcases List.mem_append.mp hm with hm' | hm'
    · obtain ⟨g0, hg0, hid⟩ := fkg m hm'
      exact ⟨g0, List.mem_append_left _ hg0, hid⟩
    · rw [List.mem_singleton] at hm'
      subst hm'
      exact ⟨_, List.mem_append_right _ (List.mem_singleton_self _), rfl⟩
  · intro m hm
    rcases List.mem_append.mp hm with hm' | hm'
    · obtain ⟨u0, hu0, hid⟩ := fku m hm'
      exact exists_key_in_map_update db.users (fun v => v.userid == o)
        (fun v => { v with current_group_id := some db.next_id,
                           is_group_owner := true })
        (fun v => v.userid) (fun a => rfl) ⟨u0, hu0, hid⟩
    · rw [List.mem_singleton] at hm'
      subst hm'
      exact exists_key_in_map_update db.users (fun v => v.userid == o)
        (fun v => { v with current_group_id := some db.next_id,
                           is_group_owner := true })
        (fun v => v.userid) (fun a => rfl) ⟨u, hum, huid⟩
  · intro u' hu' gid' hcur'
    obtain ⟨u0, hu0, rfl⟩ := List.mem_map.mp hu'
    by_cases hq : (u0.userid == o) = true
    · rw [if_pos hq] at hcur'
      have : gid' = db.next_id := by injection hcur'.symm
      rw [this]
      exact ⟨_, List.mem_append_right _ (List.mem_singleton_self _), rfl⟩
    · rw [if_neg hq] at hcur'
      obtain ⟨g0, hg0, hid⟩ := fkc u0 hu0 gid' hcur'
      exact ⟨g0, List.mem_append_left _ hg0, hid⟩
  · intro g' hg'
    rcases List.mem_append.mp hg' with hg'' | hg''
    · have := frg g' hg''
      show g'.group_id < db.next_id + 2 + ds.length
      omega
    · rw [List.mem_singleton] at hg''
      subst hg''
      show db.next_id < db.next_id + 2 + ds.length
      omega
  · intro m hm
    rcases List.mem_append.mp hm with hm' | hm'
    · have := frm m hm'
      show m.member_id < db.next_id + 2 + ds.length
      omega
    · rw [List.mem_singleton] at hm'
      subst hm'
      show db.next_id + 1 + ds.length < db.next_id + 2 + ds.length
      omega
  · intro g' hg'
    rcases List.mem_append.mp hg' with hg'' | hg''
    · show _ = (approvedCountL _ _ : Int)
      rw [approvedCountL_append, approvedCountL_singleton]
      rw [if_neg (by
        simp only [Bool.and_eq_true, beq_iff_eq]
        intro hb
        exact hgne g' hg'' hb.1.symm)]
      have := hcnt g' hg''
      rw [show approvedCount db g'.group_id = approvedCountL db.members g'.group_id
        from rfl] at this
      omega
    · rw [List.mem_singleton] at hg''
      subst hg''
      show (1 : Int) = (approvedCountL _ db.next_id : Int)
      rw [approvedCountL_append, approvedCountL_singleton,
        approvedCountL_eq_zero hmne]
      simp
  · intro u' hu'
    obtain ⟨u0, hu0, rfl⟩ := List.mem_map.mp hu'
    by_cases hq : (u0.userid == o) = true
    · have hu0id : u0.userid = o := by simpa using hq
      have hu0u : u0 = u := List.inj_on_of_nodup_map wu hu0 hum
        (by show u0.userid = u.userid; rw [hu0id, huid])
      subst hu0u
      rw [if_pos hq]
      constructor
      · intro m' hm' hmu hma
        rcases List.mem_append.mp hm' with hm' | hm'
        · have := (hlink u0 hu0).1 m' hm' hmu hma
          rw [hcn] at this
          cases this
        · rw [List.mem_singleton] at hm'
          subst hm'
          rfl
      · intro gid' hgid'
        have : gid' = db.next_id := by injection hgid'.symm
        subst this
        exact ⟨_, List.mem_append_right _ (List.mem_singleton_self _), rfl,
          hu0id.symm, rfl⟩
    · rw [if_neg hq]
      constructor
      · intro m' hm' hmu hma
        rcases List.mem_append.mp hm' with hm' | hm'
        · exact (hlink u0 hu0).1 m' hm' hmu hma
        · rw [List.mem_singleton] at hm'
          subst hm'
          exact absurd (show u0.userid = o from hmu.symm)
            (fun hh => hq (by simp [hh]))
      · intro gid' hgid'
        obtain ⟨m', hm', hma, hmb, hmc⟩ := (hlink u0 hu0).2 gid' hgid'
        exact ⟨m', List.mem_append_left _ hm', hma, hmb, hmc⟩

/-- `update_member_status` preserves the combined invariant for sound status
transitions. -/
theorem update_member_status_preserves (db : DB) (gid o mu : Nat) (ns : JoinStatus)
    (h : DBInv db) (hok : StatusOk db gid mu ns) :
    DBInv (update_member_status db gid o mu ns).2 := by
  obtain ⟨⟨wg, wu, wp, fkg, fku, fkc, frg, frm⟩, hcnt, hlink⟩ := h
  rcases update_member_status_state db gid o mu ns with hs |
    ⟨⟨g, hfg, ho⟩, hex, hbucket⟩
  · rw [hs]
    exact ⟨⟨wg, wu, wp, fkg, fku, fkc, frg, frm⟩, hcnt, hlink⟩
  obtain ⟨hgm, hgid⟩ := findGroup_eq_some hfg
  obtain ⟨l1, m0, l2, heq, h0g, h0u, hoff1, hoff2⟩ := members_decomp wp hex
  have hm0mem : m0 ∈ db.members := by
    rw [heq]
    exact List.mem_append_right _ (List.mem_cons_self _ _)
  have hM : db.members.map (fun m =>
      if m.group_id == gid && m.user_id == mu then { m with join_status := ns }
      else m) = l1 ++ { m0 with join_status := ns } :: l2 := by
    rw [heq]
    exact map_update_decomp l1 l2 m0 gid mu _ ⟨h0g, h0u⟩ hoff1 hoff2
  obtain ⟨u1, hu1, hu1id⟩ := fku m0 hm0mem
  have hu1mu : u1.userid = mu := by rw [hu1id, h0u]
  have hfu1 : findUser db.users mu = some u1 := findUser_of_mem wu hu1 hu1mu
  have hWk : ((db.members.map (fun m =>
      if m.group_id == gid && m.user_id == mu then { m with join_status := ns }
      else m)).map (fun m => (m.group_id, m.user_id))).Nodup := by
    rw [map_key_keyed_update db.members (fun m => (m.group_id, m.user_id))
      (fun m => m.group_id == gid && m.user_id == mu)
      (fun m => { m with join_status := ns }) (fun a => rfl)]
    exact wp
  have hGfk : ∀ m' ∈ (db.members.map (fun m =>
      if m.group_id == gid && m.user_id == mu then { m with join_status := ns }
      else m)), ∃ gg ∈ db.groups, gg.group_id = m'.group_id := by
    intro m' hm'
    obtain ⟨m, hm, rfl⟩ := List.mem_map.mp hm'
    by_cases hq : (m.group_id == gid && m.user_id == mu) = true
    · rw [if_pos hq]
      exact fkg m hm
    · rw [if_neg hq]
      exact fkg m hm
  have hUfk : ∀ m' ∈ (db.members.map (fun m =>
      if m.group_id == gid && m.user_id == mu then { m with join_status := ns }
      else m)), ∃ uu ∈ db.users, uu.userid = m'.user_id := by
    intro m' hm'
    obtain ⟨m, hm, rfl⟩ := List.mem_map.mp hm'
    by_cases hq : (m.group_id == gid && m.user_id == mu) = true
    · rw [if_pos hq]
      exact fku m hm
    · rw [if_neg hq]
      exact fku m hm
  have hMfr : ∀ m' ∈ (db.members.map (fun m =>
      if m.group_id == gid && m.user_id == mu then { m with join_status := ns }
      else m)), m'.member_id < db.next_id := by
    intro m' hm'
    obtain ⟨m, hm, rfl⟩ := List.mem_map.mp hm'
    by_cases hq : (m.group_id == gid && m.user_id == mu) = true
    · rw [if_pos hq]
      exact frm m hm
    · rw [if_neg hq]
      exact frm m hm
  have hmem_of_M : ∀ m', m' ∈ l1 ∨ m' ∈ l2 → m' ∈ db.members := by
    intro m' hm'
    rw [heq]
    rcases hm' with hm' | hm'
    · exact List.mem_append_left _ hm'
    · exact List.mem_append_right _ (List.mem_cons_of_mem _ hm')
  have hM_split : ∀ m', m' ∈ l1 ++ { m0 with join_status := ns } :: l2 →
      (m' ∈ l1 ∨ m' ∈ l2) ∨ m' = { m0 with join_status := ns } := by
    intro m' hm'
    rcases List.mem_append.mp hm' with hm' | hm'
    · exact Or.inl (Or.inl hm')
    · rcases List.mem_cons.mp hm' with hm' | hm'
      · exact Or.inr hm'
      · exact Or.inl (Or.inr hm')
  have hmem_M_of_off : ∀ m', m' ∈ l1 ∨ m' ∈ l2 →
      m' ∈ l1 ++ { m0 with join_status := ns } :: l2 := by
    intro m' hm'
    rcases hm' with hm' | hm'
    · exact List.mem_append_left _ hm'
    · exact List.mem_append_right _ (List.mem_cons_of_mem _ hm')
  have hsplit_orig : ∀ m', m' ∈ db.members → m' ≠ m0 → m' ∈ l1 ∨ m' ∈ l2 := by
    intro m' hm' hne
    rw [heq] at hm'
    rcases List.mem_append.mp hm' with hm' | hm'
    · exact Or.inl hm'
    · rcases List.mem_cons.mp hm' with hm' | hm'
      · exact absurd hm' hne
      · exact Or.inr hm'
  rcases hbucket with ⟨hnsA, hs⟩ | ⟨hnsRB, ⟨v, hv, hvcur⟩, hs⟩ | ⟨hns3, hs⟩
  · subst hnsA
    obtain ⟨hnotapp, hcurnone⟩ := hok
    have h0not : m0.join_status ≠ JoinStatus.Approved := hnotapp m0 hm0mem h0g h0u
    rw [hs]
    refine ⟨⟨?_, ?_, hWk, ?_, ?_, ?_, ?_, hMfr⟩, ?_, ?_⟩
    · rw [map_key_keyed_update db.groups (fun g => g.group_id)
        (fun h => h.group_id == gid)
        (fun h => { h with member_count := h.member_count + 1 }) (fun a => rfl)]
      exact wg
    · rw [map_key_keyed_update db.users (fun u => u.userid)
        (fun v => v.userid == mu)
        (fun v => { v with current_group_id := some gid }) (fun a => rfl)]
      exact wu
    · intro m' hm'
      obtain ⟨gg, hgg, hggid⟩ := hGfk m' hm'
      exact exists_key_in_map_update db.groups (fun h => h.group_id == gid)
        (fun h => { h with member_count := h.member_count + 1 })
        (fun h => h.group_id) (fun a => rfl) ⟨gg, hgg, hggid⟩
    · intro m' hm'
      obtain ⟨uu, huu, huuid⟩ := hUfk m' hm'
      exact exists_key_in_map_update db.users (fun v => v.userid == mu)
        (fun v => { v with current_group_id := some gid })
        (fun v => v.userid) (fun a => rfl) ⟨uu, huu, huuid⟩
    · intro u' hu' gid' hcur'
      obtain ⟨u0, hu0, rfl⟩ := List.mem_map.mp hu'
      by_cases hq : (u0.userid == mu) = true
      · rw [if_pos hq] at hcur'
        have hgg : gid' = gid := by injection hcur'.symm
        rw [hgg]
        exact exists_key_in_map_update db.groups (fun h => h.group_id == gid)
          (fun h => { h with member_count := h.member_count + 1 })
          (fun h => h.group_id) (fun a => rfl) ⟨g, hgm, hgid⟩
      · rw [if_neg hq] at hcur'
        obtain ⟨g0, hg0, hid⟩ := fkc u0 hu0 gid' hcur'
        exact exists_key_in_map_update db.groups (fun h => h.group_id == gid)
          (fun h => { h with member_count := h.member_count + 1 })
          (fun h => h.group_id) (fun a => rfl) ⟨g0, hg0, hid⟩
    · intro g' hg'
      obtain ⟨g0, hg0, rfl⟩ := List.mem_map.mp hg'
      by_cases hq : (g0.group_id == gid) = true
      · rw [if_pos hq]
        exact frg g0 hg0
      · rw [if_neg hq]
        exact frg g0 hg0
    · intro g' hg'
      obtain ⟨g0, hg0, rfl⟩ := List.mem_map.mp hg'
      have horig := hcnt g0 hg0
      rw [show approvedCount db g0.group_id = approvedCountL db.members g0.group_id
        from rfl, heq, approvedCountL_append_cons] at horig
      by_cases hq : (g0.group_id == gid) = true
      · have hg0id : g0.group_id = gid := by simpa using hq
        rw [if_pos hq]
        show _ = (approvedCountL _ _ : Int)
        rw [hM, approvedCountL_append_cons]
        rw [if_pos (by simp [h0g, hg0id])]
        rw [if_neg (by simp [h0not])] at horig
        push_cast at horig ⊢
        omega
      · have hne : g0.group_id ≠ gid := by simpa using hq
        rw [if_neg hq]
        show _ = (approvedCountL _ _ : Int)
        rw [hM, approvedCountL_append_cons]
        rw [if_neg (by simp [h0g]; intro hc; exact absurd hc.symm hne)]
        rw [if_neg (by simp [h0g]; intro hc; exact absurd hc.symm hne)] at horig
        push_cast at horig ⊢
        omega
    · intro u' hu'
      obtain ⟨u0, hu0, rfl⟩ := List.mem_map.mp hu'
      by_cases hq : (u0.userid == mu) = true
      · have hu0id : u0.userid = mu := by simpa using hq
        have hu0u : u0 = u1 := List.inj_on_of_nodup_map wu hu0 hu1
          (by show u0.userid = u1.userid; rw [hu0id, hu1mu])
        rw [if_pos hq]
        constructor
        · intro m' hm' hmu hma
          rw [hM] at hm'
          rcases hM_split m' hm' with hm'' | hm''
          · have horig := (hlink u0 hu0).1 m' (hmem_of_M m' hm'') hmu hma
            rw [hu0u, hcurnone u1 hu1 hu1mu] at horig
            cases horig
          · subst hm''
            show some gid = some m0.group_id
            rw [h0g]
        · intro gid' hgid'
          have hgg : gid' = gid := by injection hgid'.symm
          subst hgg
          refine ⟨{ m0 with join_status := JoinStatus.Approved }, ?_, h0g, ?_, rfl⟩
          · rw [hM]
            exact List.mem_append_right _ (List.mem_cons_self _ _)
          · show m0.user_id = u0.userid
            rw [h0u, hu0id]
      · rw [if_neg hq]
        have hne : u0.userid ≠ mu := fun hh => hq (by simp [hh])
        constructor
        · intro m' hm' hmu hma
          rw [hM] at hm'
          rcases hM_split m' hm' with hm'' | hm''
          · exact (hlink u0 hu0).1 m' (hmem_of_M m' hm'') hmu hma
          · subst hm''
            exact absurd (show u0.userid = mu by rw [← hmu]; exact h0u)
              hne
        · intro gid' hgid'
          obtain ⟨m', hm', hma, hmb, hmc⟩ := (hlink u0 hu0).2 gid' hgid'
          have hm'ne : m' ≠ m0 := by
            intro hh
            subst hh
            exact hne (by rw [← hmb, h0u])
          refine ⟨m', ?_, hma, hmb, hmc⟩
          rw [hM]
          exact hmem_M_of_off m' (hsplit_orig m' hm' hm'ne)
  · obtain ⟨hvmem, hvid⟩ := findUser_eq_some hv
    obtain ⟨r, hr, hrg, hru, hra⟩ := (hlink v hvmem).2 gid hvcur
    have hrm0 : r = m0 := List.inj_on_of_nodup_map wp hr hm0mem
      (by show (r.group_id, r.user_id) = (m0.group_id, m0.user_id)
          rw [hrg, h0g, hru, hvid, h0u])
    have h0a : m0.join_status = JoinStatus.Approved := by rw [← hrm0]; exact hra
    have hnsne : ns ≠ JoinStatus.Approved := by
      rcases hnsRB with hh | hh
      · rw [hh]
        intro hc
        cases hc
      · rw [hh]
        intro hc
        cases hc
    rw [hs]
    refine ⟨⟨?_, ?_, hWk, ?_, ?_, ?_, ?_, hMfr⟩, ?_, ?_⟩
    · rw [map_key_keyed_update db.groups (fun g => g.group_id)
        (fun h => h.group_id == gid)
        (fun h => { h with member_count := h.member_count - 1 }) (fun a => rfl)]
      exact wg
    · rw [map_key_keyed_update db.users (fun u => u.userid)
        (fun v => v.userid == mu)
        (fun v => { v with current_group_id := none }) (fun a => rfl)]
      exact wu
    · intro m' hm'
      obtain ⟨gg, hgg, hggid⟩ := hGfk m' hm'
      exact exists_key_in_map_update db.groups (fun h => h.group_id == gid)
        (fun h => { h with member_count := h.member_count - 1 })
        (fun h => h.group_id) (fun a => rfl) ⟨gg, hgg, hggid⟩
    · intro m' hm'
      obtain ⟨uu, huu, huuid⟩ := hUfk m' hm'
      exact exists_key_in_map_update db.users (fun v => v.userid == mu)
        (fun v => { v with current_group_id := none })
        (fun v => v.userid) (fun a => rfl) ⟨uu, huu, huuid⟩
    · intro u' hu' gid' hcur'
      obtain ⟨u0, hu0, rfl⟩ := List.mem_map.mp hu'
      by_cases hq : (u0.userid == mu) = true
      · rw [if_pos hq] at hcur'
        cases hcur'
      · rw [if_neg hq] at hcur'
        obtain ⟨g0, hg0, hid⟩ := fkc u0 hu0 gid' hcur'
        exact exists_key_in_map_update db.groups (fun h => h.group_id == gid)
          (fun h => { h with member_count := h.member_count - 1 })
          (fun h => h.group_id) (fun a => rfl) ⟨g0, hg0, hid⟩
    · intro g' hg'
      obtain ⟨g0, hg0, rfl⟩ := List.mem_map.mp hg'
      by_cases hq : (g0.group_id == gid) = true
      · rw [if_pos hq]
        exact frg g0 hg0
      · rw [if_neg hq]
        exact frg g0 hg0
    · intro g' hg'
      obtain ⟨g0, hg0, rfl⟩ := List.mem_map.mp hg'
      have horig := hcnt g0 hg0
      rw [show approvedCount db g0.group_id = approvedCountL db.members g0.group_id
        from rfl, heq, approvedCountL_append_cons] at horig
      by_cases hq : (g0.group_id == gid) = true
      · have hg0id : g0.group_id = gid := by simpa using hq
        rw [if_pos hq]
        show _ = (approvedCountL _ _ : Int)
        rw [hM, approvedCountL_append_cons]
        rw [if_neg (by simp [hnsne])]
        rw [if_pos (by simp [h0g, hg0id, h0a])] at horig
        push_cast at horig ⊢
        omega
      · have hne : g0.group_id ≠ gid := by simpa using hq
        rw [if_neg hq]
        show _ = (approvedCountL _ _ : Int)
        rw [hM, approvedCountL_append_cons]
        rw [if_neg (by simp [h0g]; intro hc; exact absurd hc.symm hne)]
        rw [if_neg (by simp [h0g]; intro hc; exact absurd hc.symm hne)] at horig
        push_cast at horig ⊢
        omega
    · intro u' hu'
      obtain ⟨u0, hu0, rfl⟩ := List.mem_map.mp hu'
      by_cases hq : (u0.userid == mu) = true
      · have hu0id : u0.userid = mu := by simpa using hq
        have hu0v : u0 = v := List.inj_on_of_nodup_map wu hu0 hvmem
          (by show u0.userid = v.userid; rw [hu0id, hvid])
        rw [if_pos hq]
        constructor
        · intro m' hm' hmu hma
          rw [hM] at hm'
          rcases hM_split m' hm' with hm'' | hm''
          · have horig := (hlink u0 hu0).1 m' (hmem_of_M m' hm'') hmu hma
            rw [hu0v, hvcur] at horig
            have hmg : m'.group_id = gid := by injection horig.symm
            rcases hm'' with hm'' | hm''
            · exact (hoff1 m' hm'' ⟨hmg, hmu.trans hu0id⟩).elim
            · exact (hoff2 m' hm'' ⟨hmg, hmu.trans hu0id⟩).elim
          · subst hm''
            exact absurd hma hnsne
        · intro gid' hgid'
          cases hgid'
      · rw [if_neg hq]
        have hne : u0.userid ≠ mu := fun hh => hq (by simp [hh])
        constructor
        · intro m' hm' hmu hma
          rw [hM] at hm'
          rcases hM_split m' hm' with hm'' | hm''
          · exact (hlink u0 hu0).1 m' (hmem_of_M m' hm'') hmu hma
          · subst hm''
            exact absurd (show u0.userid = mu by rw [← hmu]; exact h0u) hne
        · intro gid' hgid'
          obtain ⟨m', hm', hma, hmb, hmc⟩ := (hlink u0 hu0).2 gid' hgid'
          have hm'ne : m' ≠ m0 := by
            intro hh
            subst hh
            exact hne (by rw [← hmb, h0u])
          refine ⟨m', ?_, hma, hmb, hmc⟩
          rw [hM]
          exact hmem_M_of_off m' (hsplit_orig m' hm' hm'ne)
  · have h0not : m0.join_status ≠ JoinStatus.Approved := by
      rcases hns3 with hp | ⟨hrb, hall⟩
      · subst hp
        exact hok m0 hm0mem h0g h0u
      · intro hc
        have hlk := (hlink u1 hu1).1 m0 hm0mem (by rw [h0u, hu1mu]) hc
        rw [h0g] at hlk
        exact hall u1 hfu1 hlk
    have hnsne : ns ≠ JoinStatus.Approved := by
      rcases hns3 with hp | ⟨hrb, _⟩
      · rw [hp]
        intro hc
        cases hc
      · rcases hrb with hh | hh
        · rw [hh]
          intro hc
          cases hc
        · rw [hh]
          intro hc
          cases hc
    rw [hs]
    refine ⟨⟨wg, wu, hWk, hGfk, hUfk, fkc, frg, hMfr⟩, ?_, ?_⟩
    · intro g' hg'
      have horig := hcnt g' hg'
      rw [show approvedCount db g'.group_id = approvedCountL db.members g'.group_id
        from rfl, heq, approvedCountL_append_cons] at horig
      show _ = (approvedCountL _ _ : Int)
      rw [hM, approvedCountL_append_cons]
      rw [if_neg (by simp [hnsne])]
      rw [if_neg (by simp [h0not])] at horig
      push_cast at horig ⊢
      omega
    · intro u0 hu0
      constructor
      · intro m' hm' hmu hma
        rw [hM] at hm'
        rcases hM_split m' hm' with hm'' | hm''
        · exact (hlink u0 hu0).1 m' (hmem_of_M m' hm'') hmu hma
        · subst hm''
          exact absurd hma hnsne
      · intro gid' hgid'
        obtain ⟨m', hm', hma, hmb, hmc⟩ := (hlink u0 hu0).2 gid' hgid'
        have hm'ne : m' ≠ m0 := by
          intro hh
          subst hh
          exact h0not hmc
        refine ⟨m', ?_, hma, hmb, hmc⟩
        rw [hM]
        exact hmem_M_of_off m' (hsplit_orig m' hm' hm'ne)

theorem applyOp_preserves (db : DB) (op : LifecycleOp) (h : DBInv db)
    (hop : GoodOp db op) : DBInv (applyOp db op) := by
  cases op with
  | create o n t ds d mm => exact create_group_preserves db o n t ds d mm h
  | join u g => exact join_group_preserves db u g h
  | leave u => exact leave_group_preserves db u h
  | updateStatus g o m s => exact update_member_status_preserves db g o m s h hop
  | delete g => exact delete_group_preserves db g h

theorem runOps_preserves (db : DB) (ops : List LifecycleOp) (h : DBInv db)
    (hgood : GoodSeq db ops) : DBInv (runOps db ops) := by
  induction ops generalizing db with
  | nil => exact h
  | cons op rest ih =>
    exact ih (applyOp db op) (applyOp_preserves db op h hgood.1) hgood.2

/-- C2 (amended): starting from a well-formed state that satisfies the count
invariant and the pointer–status link, after every sequence of lifecycle
operations (create, join, leave, update_member_status, delete) executed
sequentially, each group's stored `member_count` equals the number of its
`Approved` GroupMembers rows — provided every `update_member_status` call that
sets `Approved` targets a member whose row is not already `Approved` and whose
`current_group_id` is unset, and every call that sets `Pending` targets a
member whose row is not `Approved`.  (Without that proviso the code breaks the
invariant: re-approving an approved member double-increments the count.) -/
theorem claim2_amended_count_invariant (db : DB) (ops : List LifecycleOp)
    (hwf : WF db) (hcnt : CountInv db) (hlink : LinkInv db)
    (hgood : GoodSeq db ops) : CountInv (runOps db ops) :=
  (runOps_preserves db ops ⟨hwf, hcnt, hlink⟩ hgood).2.1

/-- Witness for C2 (amended): the private-group workflow — create, request to
join, owner approves the pending member — keeps the invariant. -/
theorem claim2_witness :
    CountInv (runOps (mkDB 2)
      [.create 0 gname .Private [] none 50, .join 1 2,
       .updateStatus 2 0 1 .Approved]) := by
  refine claim2_amended_count_invariant (mkDB 2) _ ?_ (by decide) ?_ ?_
  · refine ⟨by decide, by decide, by decide, by decide, by decide, ?_,
      by decide, by decide⟩
    intro u hu gid hg
    exfalso
    have hx : ∃ a < 2, mkUser a = u := by simpa [mkDB] using hu
    obtain ⟨i, _, rfl⟩ := hx
    cases hg
  · intro u hu
    constructor
    · intro m hm
      simp [mkDB] at hm
    · intro gid hg
      exfalso
      have hx : ∃ a < 2, mkUser a = u := by simpa [mkDB] using hu
      obtain ⟨i, _, rfl⟩ := hx
      cases hg
  · exact ⟨trivial, trivial, ⟨by decide, by decide⟩, trivial⟩
